import Mathlib

/-!
Verification development for the `mkt_monitor` backend.

This file gives a shallow embedding of the parts of the repository that the
specification's claims are about:

* `backend/store.py` — the `MetricStore` class: throughput (`add_xdp_payload`)
  and integrity (`add_integrity_payload`) ingestion, composite keying,
  bounded retention with FIFO eviction, the alert log, the filtered
  `integrity_series` query and `latest_xdp_entry`.
* `backend/app.py` — the `TradeBatchAggregator` and `_process_trade_batch`.

Python's dynamically typed payload dictionaries are embedded as a JSON-like
inductive value type `Val`; Python floats are modelled as rationals (exact
arithmetic stands in for IEEE 754 here, which no claim distinguishes);
Python dicts that preserve insertion order are modelled as association
lists with in-place update.
-/

/-- Embedding of Python `str.lower()` (ASCII case mapping; the full-unicode
cases Python also maps do not occur in this system's keys and statuses).
Mapped over the character list because core `String.toLower` is
well-founded recursion the kernel cannot evaluate. -/
def String.pyLower (s : String) : String := ⟨s.data.map Char.toLower⟩

/-- Embedding of Python `str.upper()`, see `String.pyLower`. -/
def String.pyUpper (s : String) : String := ⟨s.data.map Char.toUpper⟩

namespace MktMonitor

/-- JSON-like value, the embedding of a dynamically typed Python value as it
appears in ingested payloads: `None`, booleans, numbers (modelled as `ℚ`),
strings, lists and (insertion-ordered) dicts. -/
inductive Val where
  | vnull
  | vbool (b : Bool)
  | vnum (q : ℚ)
  | vstr (s : String)
  | vlist (xs : List Val)
  | vdict (fs : List (String × Val))

/-- Python truthiness: `None`, `False`, `0`, `""`, `[]`, `{}` are falsy. -/
def truthy : Val → Bool
  | .vnull => false
  | .vbool b => b
  | .vnum q => q != 0
  | .vstr s => s ≠ ""
  | .vlist xs => !xs.isEmpty
  | .vdict fs => !fs.isEmpty

/-- Is this value a Python dict? (`isinstance(payload, dict)`). -/
def Val.isDict : Val → Bool
  | .vdict _ => true
  | _ => false

/-- Is this value Python `None`? -/
def Val.isNull : Val → Bool
  | .vnull => true
  | _ => false

/-- Python `a or b`: `a` if truthy, else `b`. -/
def pyOr (a b : Val) : Val := if truthy a then a else b

/-- Python `dict.get(k)`: the value bound to `k`, else `None`.  On a non-dict
value Python would raise `AttributeError`; the model totalises this to `None`
and every use site guards with `Val.isDict` exactly where the source does. -/
def pyGet : Val → String → Val
  | .vdict fs, k => (fs.lookup k).getD .vnull
  | _, _ => .vnull

/-- Does a dict value carry the given key? -/
def hasKey : Val → String → Bool
  | .vdict fs, k => (fs.lookup k).isSome
  | _, _ => false

/-- Python `str(...)`.  Strings are returned as-is, `None`/booleans render as
Python renders them; for numbers we render the exact rational (Python's
decimal float formatting is abstracted — no verified property inspects the
text of a stringified number); nested containers are abstracted likewise. -/
def pyStr : Val → String
  | .vnull => "None"
  | .vbool b => if b then "True" else "False"
  | .vnum q => toString q
  | .vstr s => s
  | .vlist _ => "<list>"
  | .vdict _ => "<dict>"

/-- Helper for `str(payload.get(k) or "")`, the idiom the store uses to read
an optional string field. -/
def getStrOr (p : Val) (k : String) : String :=
  pyStr (pyOr (pyGet p k) (.vstr ""))

/-- Python `value == "some string"` on a dynamically typed value: true only
for the equal string. -/
def Val.eqStr : Val → String → Bool
  | .vstr s, t => s == t
  | _, _ => false

/-- Parse the digits of a natural number; `none` on empty or non-digit input. -/
def parseDigits : List Char → Option Nat
  | [] => none
  | cs =>
    if cs.all (·.isDigit) then
      some (cs.foldl (fun n c => n * 10 + (c.toNat - '0'.toNat)) 0)
    else none

/-- Parse a decimal string (optional sign, digits, optional fractional part)
into an exact rational.  This models Python's `float(str)` on the plain
decimal strings that appear in payloads; exotic accepted spellings
(exponents, `inf`, `nan`, whitespace, underscores) are treated as
unparseable, which no claim exercises. -/
def parseDecimal? (s : String) : Option ℚ :=
  let cs := s.toList
  let (sign, body) :=
    match cs with
    | '-' :: rest => ((-1 : ℚ), rest)
    | '+' :: rest => ((1 : ℚ), rest)
    | _ => ((1 : ℚ), cs)
  match body.splitOn '.' with
  | [intPart] =>
    (parseDigits intPart).map (fun n => sign * (n : ℚ))
  | [intPart, fracPart] =>
    match parseDigits intPart, parseDigits fracPart with
    | some n, some f =>
      some (sign * ((n : ℚ) + (f : ℚ) / ((10 : ℚ) ^ fracPart.length)))
    | _, _ => none
  | _ => none

/-- Parse a pure integer string (Python `int(str)` accepts no fractional
part). -/
def parseInt? (s : String) : Option ℤ :=
  match s.toList with
  | '-' :: rest => (parseDigits rest).map (fun n => -(n : ℤ))
  | '+' :: rest => (parseDigits rest).map (fun n => (n : ℤ))
  | cs => (parseDigits cs).map (fun n => (n : ℤ))

/-- Embedding of `store._as_float`: `float(value)` with a default on
`TypeError`/`ValueError`.  `float(bool)` is 0 or 1 in Python. -/
def asFloat (v : Val) (default : ℚ) : ℚ :=
  match v with
  | .vnum q => q
  | .vbool b => if b then 1 else 0
  | .vstr s => (parseDecimal? s).getD default
  | _ => default

/-- Python `int()` truncation toward zero of a rational. -/
def truncQ (q : ℚ) : ℤ := if 0 ≤ q then ⌊q⌋ else ⌈q⌉

/-- Embedding of `store._as_int`: `int(value)` with a default on failure. -/
def asInt (v : Val) (default : ℤ) : ℤ :=
  match v with
  | .vnum q => truncQ q
  | .vbool b => if b then 1 else 0
  | .vstr s => (parseInt? s).getD default
  | _ => default

/-- Embedding of `store._coerce_timestamp`: coerce a time field to seconds;
non-positive or unparseable values yield `none`; values at or above `1e12`
are treated as milliseconds. -/
def coerceTimestamp (v : Val) : Option ℚ :=
  let ts := asFloat v (-1)
  if ts ≤ 0 then none
  else if ts ≥ 1000000000000 then some (ts / 1000)
  else some ts

/-- Abstraction of `datetime.fromtimestamp(ts, utc).isoformat()`: an
injective rendering of the timestamp.  The exact calendar text is not
load-bearing for any claim. -/
def isoformat (ts : ℚ) : String := "iso:" ++ toString ts

/-- Python `source or dflt` for an optional string: `None` and the empty
string both fall back to the default. -/
def strOrDefault (source : Option String) (dflt : String) : String :=
  match source with
  | some s => if s = "" then dflt else s
  | none => dflt

/-! ### Association lists: the embedding of insertion-ordered Python dicts -/

/-- Read a key out of an ordered dict, with a default (`dict.get(k, d)` /
`defaultdict` read). -/
def alistGet (m : List (String × α)) (k : String) (d : α) : α :=
  (m.lookup k).getD d

/-- Write a key into an ordered dict: replace in place if present, else
append at the end (Python dict insertion-order semantics). -/
def alistSet (m : List (String × α)) (k : String) (v : α) : List (String × α) :=
  match m with
  | [] => [(k, v)]
  | (k', v') :: rest =>
    if k' = k then (k, v) :: rest else (k', v') :: alistSet rest k v

/-- Remove a key from an ordered dict (`dict.pop(k, None)`). -/
def alistErase (m : List (String × α)) (k : String) : List (String × α) :=
  m.filter (fun p => p.1 ≠ k)

/-- Order-preserving first-occurrence deduplication, the embedding of
Python's `dict.fromkeys(...)` idiom used for the failed-symbol and
failed-request lists. -/
def dedupFirst (seen : List String) : List String → List String
  | [] => []
  | x :: xs =>
    if x ∈ seen then dedupFirst seen xs else x :: dedupFirst (x :: seen) xs

/-- Embedding of `while len(series) > bound: series.popleft()`: drop the
oldest points from the front until at most `bound` remain. -/
def evictFront (bound : ℕ) (s : List α) : List α :=
  s.drop (s.length - bound)

/-- Embedding of appending to a `deque(maxlen=m)`: append at the back, and
when the deque is full the oldest element falls off the front. -/
def boundedAppend (m : ℕ) (s : List α) (x : α) : List α :=
  evictFront m (s ++ [x])

/-- The newest `n` elements of a list, in order (`xs[-n:]` when over `n`). -/
def takeLast (n : ℕ) (s : List α) : List α :=
  s.drop (s.length - n)

/-! ### The throughput ("xdp") side of `MetricStore` -/

/-- A throughput point, the entry dict built by
`MetricStore.add_xdp_payload` (store.py lines 106-123). -/
structure XdpEntry where
  hostname : String
  interface : String
  timestamp : ℚ
  timestamp_iso : String
  avg_bps : ℚ
  max_bps : ℚ
  avg_mbps : ℚ
  max_mbps : ℚ
  avg_MBps : ℚ
  max_MBps : ℚ
  bytes_total : ℤ
  packets_total : ℤ
  mode : Val
  window : Val
  samples : ℤ
  source : Option String

/-- A per-request record inside a normalized integrity result
(store.py lines 229-234).  The `detail` key is only present when the raw
request carried a non-`None` detail, modelled as `Option`. -/
structure NormRequest where
  name : String
  status : String
  detail : Option Val

/-- A normalized per-symbol integrity result (store.py lines 212-242).
The `requests` key is only added when non-empty; an empty list here models
its absence. -/
structure NormResult where
  symbol : String
  status : String
  detail : Option Val
  requests : List NormRequest

/-- An integrity point, the entry dict built by
`MetricStore.add_integrity_payload` (store.py lines 183-273, 289-290). -/
structure IntegrityEntry where
  exchange : String
  timestamp : ℚ
  timestamp_iso : String
  type : String
  stage : String
  period : ℤ
  status : String
  detail : Val
  source : Option String
  hostname : String
  interface : String
  symbol : String
  is_ok : Bool
  results : List NormResult
  results_count : ℕ
  request_count : ℕ
  failed_symbols : List String
  failed_count : ℕ
  failed_requests : List String
  failed_request_count : ℕ
  stream : String
  key : String

/-- The `MetricStore` state (store.py lines 46-59).  `_xdp_points` and
`_integrity_points` come from positive configured integers, so retention
bounds are modelled as naturals; `_integrity_points` has `max(·, 1)`
applied in the constructor and `set_integrity_retention` only stores
positive overrides. -/
structure MetricStore where
  xdpPoints : ℕ
  integrityPoints : ℕ
  xdpSeries : List (String × List XdpEntry)
  integritySeries : List (String × List IntegrityEntry)
  xdpStreamCounts : List (String × ℕ)
  integrityRetention : List (String × ℕ)
  alerts : List IntegrityEntry
  alertsMaxlen : ℕ

/-- `MetricStore.__init__`. -/
def mkMetricStore (xdpPoints integrityPoints : ℕ) : MetricStore :=
  { xdpPoints := xdpPoints
    integrityPoints := max integrityPoints 1
    xdpSeries := []
    integritySeries := []
    xdpStreamCounts := []
    integrityRetention := []
    alerts := []
    alertsMaxlen := max (max integrityPoints 1) 128 }

/-- `MetricStore.set_integrity_retention`: store a positive override,
remove the override otherwise. -/
def setIntegrityRetention (st : MetricStore) (stream : String)
    (points : Option ℤ) : MetricStore :=
  let value : Option ℕ :=
    match points with
    | some p => if 0 < p then some p.toNat else none
    | none => none
  match value with
  | none => { st with integrityRetention := alistErase st.integrityRetention stream }
  | some v => { st with integrityRetention := alistSet st.integrityRetention stream v }

/-- `MetricStore._integrity_retention_limit`: the per-stream override when
set, else the global default. -/
def retentionLimit (st : MetricStore) (stream : String) : ℕ :=
  alistGet st.integrityRetention stream st.integrityPoints

/-- Decrement of `_xdp_stream_counts` for an evicted point's source
(store.py lines 133-138). -/
def decStreamCount (counts : List (String × ℕ)) (src : String) :
    List (String × ℕ) :=
  let current := alistGet counts src 0
  if current ≤ 1 then alistErase counts src
  else alistSet counts src (current - 1)

/-- The eviction loop of `add_xdp_payload` (store.py lines 131-138):
`while len(series) > bound`, pop the oldest point and decrement its
stream's count. -/
def evictXdpLoop (bound : ℕ) :
    List XdpEntry → List (String × ℕ) → List XdpEntry × List (String × ℕ)
  | [], counts => ([], counts)
  | e :: rest, counts =>
    if rest.length + 1 > bound then
      evictXdpLoop bound rest
        (decStreamCount counts (strOrDefault e.source "default"))
    else (e :: rest, counts)

/-- The series key of `add_xdp_payload` (store.py lines 86-88):
`f"{host}|{iface}"`. -/
def xdpKeyOf (payload : Val) : String :=
  getStrOr payload "hostname" ++ "|" ++ getStrOr payload "interface"

/-- `metrics = payload.get("metrics") or {}` (store.py line 90). -/
def xdpMetricsNorm (payload : Val) : Val :=
  pyOr (pyGet payload "metrics") (.vdict [])

/-- The `or`-chain selecting the average-rate field (store.py lines
94-99): `bps_avg or avg_bps or avg or bps_mean`. -/
def xdpAvgChain (payload : Val) : Val :=
  pyOr (pyGet (xdpMetricsNorm payload) "bps_avg")
    (pyOr (pyGet (xdpMetricsNorm payload) "avg_bps")
      (pyOr (pyGet (xdpMetricsNorm payload) "avg")
        (pyGet (xdpMetricsNorm payload) "bps_mean")))

/-- The `or`-chain selecting the max-rate field (store.py lines 100-104):
`bps_max or max_bps or max`. -/
def xdpMaxChain (payload : Val) : Val :=
  pyOr (pyGet (xdpMetricsNorm payload) "bps_max")
    (pyOr (pyGet (xdpMetricsNorm payload) "max_bps")
      (pyGet (xdpMetricsNorm payload) "max"))

/-- The entry construction of `add_xdp_payload` (store.py lines 90-123):
defensive numeric coercion and derived rate units.  `now` stands for
`time.time()`, the timestamp fallback. -/
def buildXdpEntry (payload : Val) (now : ℚ) (source : Option String) :
    XdpEntry :=
  let metrics := xdpMetricsNorm payload
  let timestamp := asFloat (pyGet payload "timestamp") now
  let avg_bps := asFloat (xdpAvgChain payload) 0
  let max_bps := asFloat (xdpMaxChain payload) 0
  { hostname := getStrOr payload "hostname"
    interface := getStrOr payload "interface"
    timestamp := timestamp
    timestamp_iso := pyStr (pyOr (pyGet payload "timestamp_iso") (.vstr (isoformat timestamp)))
    avg_bps := avg_bps
    max_bps := max_bps
    avg_mbps := avg_bps / 1000000
    max_mbps := max_bps / 1000000
    avg_MBps := avg_bps / 8000000
    max_MBps := max_bps / 8000000
    bytes_total := asInt (pyGet metrics "bytes_total") 0
    packets_total := asInt (pyGet metrics "packets_total") 0
    mode := pyGet payload "mode"
    window := pyGet payload "window"
    samples := asInt (pyGet payload "samples") 0
    source := source }

/-- `MetricStore.add_xdp_payload`: build the throughput entry, append it
to the keyed series, bump the stream count, and evict oldest points while
over the bound. -/
def addXdpPayload (st : MetricStore) (payload : Val) (now : ℚ)
    (source : Option String) : (String × XdpEntry) × MetricStore :=
  let key := xdpKeyOf payload
  let entry := buildXdpEntry payload now source
  let series := alistGet st.xdpSeries key []
  let streamName := strOrDefault source "default"
  let counts1 := alistSet st.xdpStreamCounts streamName
    (alistGet st.xdpStreamCounts streamName 0 + 1)
  let evicted := evictXdpLoop st.xdpPoints (series ++ [entry]) counts1
  ((key, entry),
    { st with
        xdpSeries := alistSet st.xdpSeries key evicted.1
        xdpStreamCounts := evicted.2 })

/-- The candidate list of `latest_xdp_entry`: the newest point of each
non-empty throughput series, in dict (insertion) order, paired with its
key (store.py lines 467-470). -/
def candidatesOf (st : MetricStore) : List (String × XdpEntry) :=
  st.xdpSeries.filterMap (fun kv => (kv.2.getLast?).map (fun e => (kv.1, e)))

/-- The selection loop of `latest_xdp_entry` once a first candidate has
been accepted: a later candidate replaces the current best when its
timestamp is greater *or equal* (store.py line 472). -/
def pickLatestAux (best : String × XdpEntry) :
    List (String × XdpEntry) → String × XdpEntry
  | [] => best
  | c :: cs =>
    if best.2.timestamp ≤ c.2.timestamp then pickLatestAux c cs
    else pickLatestAux best cs

/-- `MetricStore.latest_xdp_entry`: scan all series, take the newest point
of each, and keep the one with the largest timestamp, non-strict
comparison (so the last candidate seen wins a tie); `none` when every
series is empty. -/
def latestXdpEntry (st : MetricStore) : Option (String × XdpEntry) :=
  match candidatesOf st with
  | [] => none
  | c :: cs => some (pickLatestAux c cs)

/-! ### Integrity ingestion -/

/-- `MetricStore._compose_integrity_key` (store.py lines 327-355): the
composite key is the `"|"`-join of the non-empty components in the fixed
order stream, hostname, interface, exchange, stage, type, symbol, with
stream/exchange/stage/type lower-cased and symbol upper-cased, and the
sentinel `"integrity"` when every component is empty. -/
def composeIntegrityKey (streamName hostname interface exchange symbol
    stage eventType : String) : String :=
  let parts : List String :=
    (if streamName ≠ "" then [streamName.pyLower] else []) ++
    (if hostname ≠ "" then [hostname] else []) ++
    (if interface ≠ "" then [interface] else []) ++
    (if exchange ≠ "" then [exchange.pyLower] else []) ++
    (if stage ≠ "" then [stage.pyLower] else []) ++
    (if eventType ≠ "" then [eventType.pyLower] else []) ++
    (if symbol ≠ "" then [symbol.pyUpper] else [])
  if parts.isEmpty then "integrity" else String.intercalate "|" parts

/-- The inner request-normalization loop of `add_integrity_payload`
(store.py lines 222-240) for one result item: skips non-dict entries,
normalizes name/status/detail, and records a failure label for every
request whose status is not `"ok"`. -/
def processRequests (symbolNorm : String) :
    List Val → List NormRequest × List String
  | [] => ([], [])
  | r :: rest =>
    if r.isDict then
      let requestName := pyStr (pyOr (pyOr (pyGet r "request") (pyGet r "name")) (.vstr ""))
      let requestStatus := (getStrOr r "status").pyLower
      let requestDetail := pyGet r "detail"
      let nr : NormRequest :=
        { name := requestName
          status := requestStatus
          detail := if requestDetail.isNull then none else some requestDetail }
      let fails : List String :=
        if requestStatus ≠ "ok" then
          let label0 :=
            if requestName ≠ "" then requestName
            else pyStr (pyOr requestDetail (.vstr "unknown"))
          [if symbolNorm ≠ "" then symbolNorm ++ ":" ++ label0 else label0]
        else []
      let tailRes := processRequests symbolNorm rest
      (nr :: tailRes.1, fails ++ tailRes.2)
    else processRequests symbolNorm rest

/-- The result-normalization loop of `add_integrity_payload` (store.py
lines 203-246): skips non-dict items; returns the normalized results, the
failed-symbol occurrences and the failed-request labels, in source order.
(The source only attaches the `requests` key when the list is non-empty;
an empty list models its absence.) -/
def processResults : List Val → List NormResult × List String × List String
  | [] => ([], [], [])
  | item :: rest =>
    if item.isDict then
      let symbol := getStrOr item "symbol"
      let symbolNorm := if symbol ≠ "" then symbol.pyUpper else ""
      let status := (getStrOr item "status").pyLower
      let detailValue := pyGet item "detail"
      let reqRes :=
        match pyGet item "requests" with
        | .vlist rs => processRequests symbolNorm rs
        | _ => ([], [])
      let nr : NormResult :=
        { symbol := symbolNorm
          status := status
          detail := if detailValue.isNull then none else some detailValue
          requests := reqRes.1 }
      let failSyms : List String :=
        if status ≠ "" ∧ status ≠ "ok" then
          [if symbolNorm ≠ "" then symbolNorm else symbol]
        else []
      let tailRes := processResults rest
      (nr :: tailRes.1, failSyms ++ tailRes.2.1, reqRes.2 ++ tailRes.2.2)
    else processResults rest

/-- `defaults = defaults or {}` (store.py line 162). -/
def integrityDefaultsNorm (defaults : Val) : Val := pyOr defaults (.vdict [])

/-- The exchange component of an integrity payload (store.py line 163). -/
def integrityExchange (payload : Val) : String := getStrOr payload "exchange"

/-- The lower-cased event type (store.py line 164). -/
def integrityEventType (payload : Val) : String := (getStrOr payload "type").pyLower

/-- The stage component: `payload.get("stage") or payload.get("mode") or ""`
stringified (store.py lines 165-166; the chain cannot be `None`, so the
`is not None` guard is vacuous). -/
def integrityStage (payload : Val) : String :=
  pyStr (pyOr (pyGet payload "stage") (pyOr (pyGet payload "mode") (.vstr "")))

/-- The hostname tag: defaults first, then the payload (store.py line 168). -/
def integrityHostname (payload defaults : Val) : String :=
  pyStr (pyOr
    (pyOr (pyGet (integrityDefaultsNorm defaults) "hostname")
      (pyOr (pyGet payload "hostname") (.vstr "")))
    (.vstr ""))

/-- The interface tag: defaults first, then the payload (store.py line 169). -/
def integrityInterface (payload defaults : Val) : String :=
  pyStr (pyOr
    (pyOr (pyGet (integrityDefaultsNorm defaults) "interface")
      (pyOr (pyGet payload "interface") (.vstr "")))
    (.vstr ""))

/-- The timestamp chain of `add_integrity_payload` (store.py lines
171-178): the first coercible of `timestamp`, `timestamp_ms`,
`period_end_ts`, `close_tp`, `tp`, else the current time. -/
def integrityTimestamp (payload : Val) (now : ℚ) : ℚ :=
  ((coerceTimestamp (pyGet payload "timestamp")).orElse (fun _ =>
    (coerceTimestamp (pyGet payload "timestamp_ms")).orElse (fun _ =>
      (coerceTimestamp (pyGet payload "period_end_ts")).orElse (fun _ =>
        (coerceTimestamp (pyGet payload "close_tp")).orElse (fun _ =>
          coerceTimestamp (pyGet payload "tp")))))).getD now

/-- The lower-cased status field (store.py line 190). -/
def integrityStatusNorm (payload : Val) : String :=
  (getStrOr payload "status").pyLower

/-- The `(normalized_results, failed_symbols, failed_requests)` triple of
the results loop (store.py lines 197-246); a non-list `results` field is
skipped. -/
def integrityProcessed (payload : Val) :
    List NormResult × List String × List String :=
  match pyGet payload "results" with
  | .vlist items => processResults items
  | _ => ([], [], [])

/-- The deduplicated non-empty failed symbols (store.py line 248). -/
def integrityFailedSymbols (payload : Val) : List String :=
  dedupFirst [] ((integrityProcessed payload).2.1.filter (· ≠ ""))

/-- The deduplicated non-empty failed request labels (store.py line 249). -/
def integrityFailedRequests (payload : Val) : List String :=
  dedupFirst [] ((integrityProcessed payload).2.2.filter (· ≠ ""))

/-- The condition of store.py line 254: empty status with failures
rewrites the status to `"fail"` and forces `is_ok` off. -/
def integrityFailCond (payload : Val) : Bool :=
  (integrityStatusNorm payload == "") &&
    (!(integrityFailedSymbols payload).isEmpty ||
     !(integrityFailedRequests payload).isEmpty)

/-- The entry construction of `add_integrity_payload` (store.py lines
162-273 plus the key/stream assignment at 280-290).  `now` stands for
`time.time()`, the timestamp fallback.  The entry does not depend on the
store state, only on the payload, the source stream and the defaults. -/
def buildIntegrityEntry (payload : Val) (now : ℚ) (source : Option String)
    (defaults : Val) : IntegrityEntry :=
  let exchange := integrityExchange payload
  let eventType := integrityEventType payload
  let stage := integrityStage payload
  let hostname := integrityHostname payload defaults
  let interface := integrityInterface payload defaults
  let timestamp := integrityTimestamp payload now
  let status0 := integrityStatusNorm payload
  let detail0 := pyGet payload "detail"
  let results := (integrityProcessed payload).1
  let failedSymbols := integrityFailedSymbols payload
  let failedRequests := integrityFailedRequests payload
  let isOk0 : Bool :=
    if status0 ≠ "" then status0 == "ok"
    else failedSymbols.isEmpty && failedRequests.isEmpty
  let failCond := integrityFailCond payload
  let detailF :=
    if truthy detail0 then detail0
    else if failedSymbols ≠ [] then
      .vstr ("失败合约: " ++ String.intercalate ", " failedSymbols)
    else if failedRequests ≠ [] then
      .vstr ("失败请求: " ++ String.intercalate ", " failedRequests)
    else detail0
  let streamName := strOrDefault source "integrity"
  { exchange := exchange
    timestamp := timestamp
    timestamp_iso := isoformat timestamp
    type := eventType
    stage := stage
    period := asInt (pyGet payload "period") 0
    status := if failCond then "fail" else status0
    detail := detailF
    source := source
    hostname := hostname
    interface := interface
    symbol := (getStrOr payload "symbol").pyUpper
    is_ok := if failCond then false else isOk0
    results := results
    results_count := results.length
    request_count := (results.map (fun r => r.requests.length)).sum
    failed_symbols := failedSymbols
    failed_count := failedSymbols.length
    failed_requests := failedRequests
    failed_request_count := failedRequests.length
    stream := streamName
    key := composeIntegrityKey streamName hostname interface exchange "" stage eventType }

/-- `MetricStore.add_integrity_payload` (store.py lines 152-325): a
non-dict payload returns the empty update list and leaves the store
untouched; otherwise the normalized entry is appended to its keyed
series, the series is evicted down to its retention limit (per-stream
override else global default), and a not-ok entry is also appended to the
bounded alert log. -/
def addIntegrityPayload (st : MetricStore) (payload : Val) (now : ℚ)
    (source : Option String) (defaults : Val) :
    List (String × IntegrityEntry × Bool) × MetricStore :=
  if payload.isDict then
    let entry := buildIntegrityEntry payload now source defaults
    let streamName := strOrDefault source "integrity"
    let series := alistGet st.integritySeries entry.key []
    let limit := retentionLimit st streamName
    let series2 := evictFront limit (series ++ [entry])
    let alerts2 :=
      if entry.is_ok then st.alerts
      else boundedAppend st.alertsMaxlen st.alerts entry
    ([(entry.key, entry, !entry.is_ok)],
      { st with
          integritySeries := alistSet st.integritySeries entry.key series2
          alerts := alerts2 })
  else ([], st)

/-! ### Sequences of store mutations -/

/-- One `add_*` call on the store. -/
inductive StoreOp where
  | xdp (payload : Val) (now : ℚ) (source : Option String)
  | integrity (payload : Val) (now : ℚ) (source : Option String) (defaults : Val)

/-- Apply one op, also returning the integrity entries it produced. -/
def applyOpTrace (st : MetricStore) : StoreOp → MetricStore × List IntegrityEntry
  | .xdp p now src => ((addXdpPayload st p now src).2, [])
  | .integrity p now src d =>
    let r := addIntegrityPayload st p now src d
    (r.2, r.1.map (fun u => u.2.1))

/-- Apply one op, keeping only the store. -/
def applyOp (st : MetricStore) (op : StoreOp) : MetricStore :=
  (applyOpTrace st op).1

/-- Run a sequence of `add_*` calls. -/
def runOps (st : MetricStore) (ops : List StoreOp) : MetricStore :=
  ops.foldl applyOp st

/-- Run a sequence of `add_*` calls, collecting every integrity entry
produced, in order. -/
def runTrace : MetricStore → List StoreOp → MetricStore × List IntegrityEntry
  | st, [] => (st, [])
  | st, op :: ops =>
    let r1 := applyOpTrace st op
    let r2 := runTrace r1.1 ops
    (r2.1, r1.2 ++ r2.2)

/-! ### The filtered integrity query -/

/-- One filter of `integrity_series` (store.py e.g. line 430): a point is
excluded only when the filter is supplied (non-`None`, non-empty) and the
field differs. -/
def matchesFilter (f : Option String) (v : String) : Bool :=
  match f with
  | none => true
  | some s => if s = "" then true else v == s

/-- The conjunction of all six filters of `integrity_series`. -/
def passesFilters (exchange symbol hostname interface typeFilter stage :
    Option String) (point : IntegrityEntry) : Bool :=
  matchesFilter exchange point.exchange &&
  matchesFilter symbol point.symbol &&
  matchesFilter hostname point.hostname &&
  matchesFilter interface point.interface &&
  matchesFilter typeFilter point.type &&
  matchesFilter stage point.stage

/-- The record constructed per surviving point (store.py lines 444-453):
a copy of the point with `key` set to the series key and `stream`
re-derived; the remaining re-assignments write back the values just read
from the point and are the identity here. -/
def queryRecord (k : String) (point : IntegrityEntry) : IntegrityEntry :=
  { point with
      key := k
      stream := if point.stream ≠ "" then point.stream else point.source.getD "" }

/-- Ascending-timestamp ordering on integrity entries, the sort key of
`integrity_series` (store.py line 455; every stored entry carries its
rational timestamp, so `float(item.get("timestamp") or 0.0)` reads it
back unchanged). -/
def tsLe (a b : IntegrityEntry) : Prop := a.timestamp ≤ b.timestamp

instance : DecidableRel tsLe :=
  fun a b => inferInstanceAs (Decidable (a.timestamp ≤ b.timestamp))

instance : IsTotal IntegrityEntry tsLe := ⟨fun a b => le_total a.timestamp b.timestamp⟩

instance : IsTrans IntegrityEntry tsLe := ⟨fun _ _ _ h h' => le_trans h h'⟩

/-- `MetricStore.integrity_series` (store.py lines 410-458): scan all
integrity series in order, keep the points passing every supplied filter,
sort the surviving records by timestamp ascending (Python's sort is
stable; insertion sort on `≤` is the stable embedding), and when a
positive `limit` is exceeded keep only the newest `limit` records. -/
def integrityQueryRecords (st : MetricStore)
    (exchange symbol hostname interface typeFilter stage : Option String) :
    List IntegrityEntry :=
  st.integritySeries.foldl
    (fun acc kv => acc ++ kv.2.filterMap (fun point =>
      if passesFilters exchange symbol hostname interface typeFilter stage point
      then some (queryRecord kv.1 point) else none)) []

def integritySeriesQuery (st : MetricStore)
    (exchange symbol hostname interface typeFilter stage : Option String)
    (limit : Option ℤ) : List IntegrityEntry :=
  let sorted := List.insertionSort tsLe
    (integrityQueryRecords st exchange symbol hostname interface typeFilter stage)
  match limit with
  | some l =>
    if 0 < l ∧ l.toNat < sorted.length then takeLast l.toNat sorted else sorted
  | none => sorted

/-! ### The trade batch aggregator (`backend/app.py`) -/

/-- `app._coerce_trade_timestamp` (app.py lines 74-83). -/
def coerceTradeTimestamp (v : Val) : Option ℚ :=
  match v with
  | .vnum q =>
    if q ≤ 0 then none
    else if q ≥ 1000000000000 then some (q / 1000) else some q
  | .vstr s =>
    match parseDecimal? s with
    | none => none
    | some q =>
      if q ≤ 0 then none
      else if q ≥ 1000000000000 then some (q / 1000) else some q
  | .vbool b => if b then some 1 else none
  | _ => none

/-- `app._extract_trade_timestamp` (app.py lines 86-91): the first of
`timestamp_ms`, `period_end_ts`, `tp`, `timestamp` that coerces. -/
def extractTradeTimestamp (p : Val) : Option ℚ :=
  (coerceTradeTimestamp (pyGet p "timestamp_ms")).orElse (fun _ =>
    (coerceTradeTimestamp (pyGet p "period_end_ts")).orElse (fun _ =>
      (coerceTradeTimestamp (pyGet p "tp")).orElse (fun _ =>
        coerceTradeTimestamp (pyGet p "timestamp"))))

/-- The fields of a stream source descriptor that the aggregator reads
(`stream_cfg.name`, `stream_cfg.topic`). -/
structure StreamCfg where
  name : String
  topic : String

/-- A pending batch of the `TradeBatchAggregator` (app.py lines 126-132).
The armed one-shot `threading.Timer` is modelled by the identity it was
armed with (`timerId`, fresh per arming) and the delay it was armed for
(`timerDelay`); a batch whose timer fields are unchanged has not had its
timer reset. -/
structure PendingBatch where
  streamCfg : StreamCfg
  topic : String
  payloads : List Val
  defaults : List (String × Val)
  timerId : ℕ
  timerDelay : ℚ

/-- The aggregator state: the configured delay (clamped at 0 as in
`__init__`), the pending-batch dict, and the counter supplying fresh
timer identities. -/
structure AggState where
  delay : ℚ
  batches : List (String × PendingBatch)
  nextTimerId : ℕ

/-- `TradeBatchAggregator.__init__`. -/
def mkAggregator (delaySeconds : ℚ) : AggState :=
  { delay := max delaySeconds 0, batches := [], nextTimerId := 0 }

/-- `TradeBatchAggregator._make_key` (app.py lines 161-188). -/
def aggMakeKey (cfg : StreamCfg) (topic : String) (payload : Val)
    (defaults : List (String × Val)) : String :=
  let host := pyStr (pyOr (alistGet defaults "hostname" .vnull) (.vstr ""))
  let interface := pyStr (pyOr (alistGet defaults "interface" .vnull) (.vstr ""))
  let exchange := (getStrOr payload "exchange").pyLower
  let minuteRaw := pyGet payload "minute"
  let minutePart := if minuteRaw.isNull then "" else pyStr minuteRaw
  let bucket :=
    match extractTradeTimestamp payload with
    | some ts => toString (⌊ts / 60⌋ : ℤ)
    | none => ""
  let topicPart := if topic ≠ "" then topic else cfg.topic
  let eventType := (getStrOr payload "type").pyLower
  String.intercalate "|"
    [cfg.name, topicPart, host, interface, exchange, minutePart, bucket, eventType]

/-- The defaults merge of `TradeBatchAggregator.add` (app.py lines
137-141): only newly supplied non-empty (truthy) values overwrite. -/
def mergeDefaults (base updates : List (String × Val)) : List (String × Val) :=
  updates.foldl (fun acc kv => if truthy kv.2 then alistSet acc kv.1 kv.2 else acc) base

/-- `TradeBatchAggregator.add` (app.py lines 109-141): ignore non-dict
payloads; when no pending batch exists for the computed key, create one
holding this payload and arm a fresh one-shot timer for the configured
delay; otherwise append to the existing batch and merge defaults, leaving
the already-armed timer untouched. -/
def aggAdd (st : AggState) (cfg : StreamCfg) (topic : String) (payload : Val)
    (defaults : List (String × Val)) : AggState :=
  if payload.isDict then
    let key := aggMakeKey cfg topic payload defaults
    match st.batches.lookup key with
    | none =>
      { st with
          batches := alistSet st.batches key
            { streamCfg := cfg
              topic := topic
              payloads := [payload]
              defaults := defaults
              timerId := st.nextTimerId
              timerDelay := st.delay }
          nextTimerId := st.nextTimerId + 1 }
    | some b =>
      { st with
          batches := alistSet st.batches key
            { b with
                payloads := b.payloads ++ [payload]
                topic := topic
                defaults := mergeDefaults b.defaults defaults } }
  else st

/-- The state transition of `TradeBatchAggregator._flush` (app.py lines
143-159): atomically pop the batch for the key; the popped batch (if any,
and non-empty) is then handed to the processor outside the lock. -/
def aggFlushPop (st : AggState) (key : String) :
    AggState × Option PendingBatch :=
  ({ st with batches := alistErase st.batches key }, st.batches.lookup key)

/-- The per-item normalized record built by `_process_trade_batch`
(app.py lines 273-283), as the dict literal the source constructs. -/
def tradeItemRecord (raw : Val) : Val :=
  let itemTs := extractTradeTimestamp raw
  .vdict
    [("exchange", .vstr (getStrOr raw "exchange")),
     ("symbol", .vstr (getStrOr raw "symbol")),
     ("status", .vstr ((getStrOr raw "status").pyLower)),
     ("detail", pyGet raw "detail"),
     ("minute", pyGet raw "minute"),
     ("timestamp", match itemTs with | some t => .vnum t | none => .vnull),
     ("timestamp_iso", match itemTs with | some t => .vstr (isoformat t) | none => .vnull)]

/-- The loop state of `_process_trade_batch`'s scan over the payload list
(app.py lines 254-284). -/
structure TradeScanAcc where
  exchange : String
  minute : Val
  items : List Val
  timestamps : List ℚ

/-- One iteration of the `_process_trade_batch` scan: skip non-dicts,
remember the first non-empty exchange and the last non-`None` minute,
collect parseable timestamps and the normalized item record. -/
def tradeScanStep (acc : TradeScanAcc) (raw : Val) : TradeScanAcc :=
  if raw.isDict then
    let exchangeCandidate := getStrOr raw "exchange"
    { exchange :=
        if exchangeCandidate ≠ "" ∧ acc.exchange = "" then exchangeCandidate
        else acc.exchange
      minute := if (pyGet raw "minute").isNull then acc.minute else pyGet raw "minute"
      items := acc.items ++ [tradeItemRecord raw]
      timestamps :=
        match extractTradeTimestamp raw with
        | some t => acc.timestamps ++ [t]
        | none => acc.timestamps }
  else acc

/-- The full scan of `_process_trade_batch` over the payload list. -/
def tradeScan (payloads : List Val) : TradeScanAcc :=
  payloads.foldl tradeScanStep
    { exchange := "", minute := .vnull, items := [], timestamps := [] }

/-- The `batch_items` list of `_process_trade_batch` (the per-raw
normalized records of app.py lines 273-284). -/
def batchItemsOf (payloads : List Val) : List Val := (tradeScan payloads).items

/-- The failures of `_process_trade_batch` (app.py line 290): items whose
status differs from `"ok"`. -/
def batchFailuresOf (payloads : List Val) : List Val :=
  (batchItemsOf payloads).filter (fun it => !((pyGet it "status").eqStr "ok"))

/-- The representative exchange (app.py lines 262-264, 286-287): the
first non-empty exchange seen in the scan, else the last payload's. -/
def batchExchangeOf (payloads : List Val) : String :=
  if (tradeScan payloads).exchange = "" then
    getStrOr ((payloads.getLast?).getD .vnull) "exchange"
  else (tradeScan payloads).exchange

/-- The aggregate timestamp (app.py line 289): `max(timestamps)` when any
item timestamp parsed, else the current time. -/
def batchTimestampOf (payloads : List Val) (now : ℚ) : ℚ :=
  match (tradeScan payloads).timestamps with
  | [] => now
  | t :: ts => ts.foldl max t

/-- The aggregate status (app.py line 291): `"ok"` iff no failures. -/
def batchStatusOf (payloads : List Val) : String :=
  if (batchFailuresOf payloads).isEmpty then "ok" else "error"

/-- The aggregate detail text (app.py lines 293-303). -/
def batchDetailOf (payloads : List Val) : String :=
  if (batchFailuresOf payloads).isEmpty then
    toString (batchItemsOf payloads).length ++ " 个交易对正常"
  else
    "异常符号: " ++ String.intercalate ", "
      ((batchFailuresOf payloads).map (fun it =>
        let symbolLabel :=
          if truthy (pyGet it "symbol") then pyStr (pyGet it "symbol") else "*"
        if truthy (pyGet it "detail") then
          symbolLabel ++ "(" ++ pyStr (pyGet it "detail") ++ ")"
        else symbolLabel))

/-- The synthetic aggregate integrity payload emitted by
`_process_trade_batch` (app.py lines 245-317): `none` on an empty payload
list, else the dict literal of lines 305-317, which is then fed to
`MetricStore.add_integrity_payload`.  `now` stands for `time.time()`, the
timestamp fallback. -/
def processTradeBatchPayload (payloads : List Val) (now : ℚ) : Option Val :=
  match payloads with
  | [] => none
  | _ =>
    some (.vdict
      [("type", .vstr "trade"),
       ("exchange", .vstr (batchExchangeOf payloads)),
       ("symbol", .vstr "__batch__"),
       ("status", .vstr (batchStatusOf payloads)),
       ("detail", .vstr (batchDetailOf payloads)),
       ("minute", (tradeScan payloads).minute),
       ("timestamp", .vnum (batchTimestampOf payloads now)),
       ("trade_batch", .vbool true),
       ("trade_batch_size", .vnum ((batchItemsOf payloads).length : ℚ)),
       ("trade_batch_failures", .vnum ((batchFailuresOf payloads).length : ℚ)),
       ("trade_batch_items", .vlist (batchItemsOf payloads))])

/-! ### Definitions written from the specification's words, for refinement
comparison against the code-derived definitions above -/

/-- The composite key as the claim words it: the concatenation, in the
fixed order stream, hostname, interface, exchange, stage, type, symbol,
of exactly the non-empty components, lower-casing stream, exchange, stage
and type and upper-casing symbol, with the constant sentinel when every
component is empty. -/
def claimCompositeKey (stream hostname interface exchange stage ty symbol :
    String) : String :=
  let parts : List String :=
    (if stream ≠ "" then [stream.pyLower] else []) ++
    (if hostname ≠ "" then [hostname] else []) ++
    (if interface ≠ "" then [interface] else []) ++
    (if exchange ≠ "" then [exchange.pyLower] else []) ++
    (if stage ≠ "" then [stage.pyLower] else []) ++
    (if ty ≠ "" then [ty.pyLower] else []) ++
    (if symbol ≠ "" then [symbol.pyUpper] else [])
  if parts.isEmpty then "integrity" else String.intercalate "|" parts

/-- The first non-empty exchange among the (dict) items, if any. -/
def firstNonEmptyExchange? (payloads : List Val) : Option String :=
  payloads.findSome? (fun p =>
    if p.isDict then
      if getStrOr p "exchange" = "" then none else some (getStrOr p "exchange")
    else none)

/-- The representative exchange as the claim words it: the first
non-empty exchange among the items, else the last element's exchange. -/
def claimRepExchange (payloads : List Val) : String :=
  (firstNonEmptyExchange? payloads).getD
    (getStrOr ((payloads.getLast?).getD .vnull) "exchange")

/-- The aggregate timestamp as the claim words it: the maximum parseable
event timestamp across items, falling back to the current time. -/
def claimBatchTimestamp (payloads : List Val) (now : ℚ) : ℚ :=
  match (payloads.filter Val.isDict).filterMap extractTradeTimestamp with
  | [] => now
  | t :: ts => ts.foldl max t

/-- The "latest throughput point" as the amended claim words it: among
the newest point of each non-empty series (in dict order), the candidate
with the maximum timestamp, a tie going to the candidate seen last. -/
def specLatestThroughput (cands : List (String × XdpEntry)) :
    Option (String × XdpEntry) :=
  match cands with
  | [] => none
  | c :: cs =>
    let m := cs.foldl (fun acc x => max acc x.2.timestamp) c.2.timestamp
    ((c :: cs).filter (fun x => decide (x.2.timestamp = m))).getLast?

/-! ### Helper lemmas: ordered dicts -/

theorem lookup_mem {β : Type} {m : List (String × β)} {k : String} {v : β}
    (h : m.lookup k = some v) : (k, v) ∈ m := by
  induction m with
  | nil => simp [List.lookup] at h
  | cons p rest ih =>
    rcases p with ⟨k', v'⟩
    rw [List.lookup] at h
    by_cases hk : k = k'
    · subst hk
      simp at h
      simp [h]
    · have hb : (k == k') = false := beq_false_of_ne hk
      rw [hb] at h
      exact List.mem_cons_of_mem _ (ih h)

theorem lookup_alistSet_self {β : Type} (m : List (String × β)) (k : String)
    (v : β) : (alistSet m k v).lookup k = some v := by
  induction m with
  | nil => simp [alistSet, List.lookup]
  | cons p rest ih =>
    rcases p with ⟨k', v'⟩
    by_cases hk : k' = k
    · simp [alistSet, hk, List.lookup]
    · have hb : (k == k') = false := beq_false_of_ne (fun h => hk h.symm)
      simp only [alistSet, if_neg hk, List.lookup, hb]
      exact ih

theorem lookup_alistSet_ne {β : Type} (m : List (String × β)) {k k' : String}
    (v : β) (h : k' ≠ k) : (alistSet m k v).lookup k' = m.lookup k' := by
  induction m with
  | nil => simp [alistSet, List.lookup, beq_false_of_ne h]
  | cons p rest ih =>
    rcases p with ⟨k₀, v₀⟩
    by_cases hk : k₀ = k
    · subst hk
      simp [alistSet, List.lookup, beq_false_of_ne h]
    · simp only [alistSet, if_neg hk, List.lookup]
      by_cases hkk : k' = k₀
      · simp [hkk]
      · rw [beq_false_of_ne hkk]
        exact ih

theorem alistGet_alistSet_self {β : Type} (m : List (String × β)) (k : String)
    (v d : β) : alistGet (alistSet m k v) k d = v := by
  simp [alistGet, lookup_alistSet_self]

theorem alistGet_alistSet_ne {β : Type} (m : List (String × β)) {k k' : String}
    (v : β) (d : β) (h : k' ≠ k) :
    alistGet (alistSet m k v) k' d = alistGet m k' d := by
  simp [alistGet, lookup_alistSet_ne m v h]

theorem lookup_alistErase_self {β : Type} (m : List (String × β)) (k : String) :
    (alistErase m k).lookup k = none := by
  induction m with
  | nil => simp [alistErase, List.lookup]
  | cons p rest ih =>
    rcases p with ⟨k', v'⟩
    by_cases hk : k' = k
    · simpa [alistErase, hk] using ih
    · have hb : (k == k') = false := beq_false_of_ne (fun h => hk h.symm)
      simpa [alistErase, hk, List.lookup, hb] using ih

theorem mem_fst_alistSet {β : Type} {m : List (String × β)} {k x : String}
    {v : β} (h : x ∈ (alistSet m k v).map Prod.fst) :
    x = k ∨ x ∈ m.map Prod.fst := by
  induction m with
  | nil => simpa [alistSet] using h
  | cons p rest ih =>
    rcases p with ⟨k', v'⟩
    by_cases hk : k' = k
    · subst hk
      rw [alistSet, if_pos rfl] at h
      simp only [List.map_cons, List.mem_cons] at h
      rcases h with h | h
      · exact Or.inl h
      · exact Or.inr (List.mem_cons_of_mem _ h)
    · rw [alistSet, if_neg hk] at h
      simp only [List.map_cons, List.mem_cons] at h
      rcases h with h | h
      · exact Or.inr (by simp [h])
      · rcases ih h with h' | h'
        · exact Or.inl h'
        · exact Or.inr (List.mem_cons_of_mem _ h')

theorem nodup_fst_alistSet {β : Type} {m : List (String × β)} (k : String)
    (v : β) (h : (m.map Prod.fst).Nodup) :
    ((alistSet m k v).map Prod.fst).Nodup := by
  induction m with
  | nil => simp [alistSet]
  | cons p rest ih =>
    rcases p with ⟨k', v'⟩
    rw [List.map_cons, List.nodup_cons] at h
    by_cases hk : k' = k
    · subst hk
      rw [alistSet, if_pos rfl, List.map_cons, List.nodup_cons]
      exact ⟨h.1, h.2⟩
    · rw [alistSet, if_neg hk, List.map_cons, List.nodup_cons]
      refine ⟨fun hx => ?_, ih h.2⟩
      rcases mem_fst_alistSet hx with h' | h'
      · exact hk h'
      · exact h.1 h'

theorem nodup_fst_alistErase {β : Type} {m : List (String × β)} (k : String)
    (h : (m.map Prod.fst).Nodup) : ((alistErase m k).map Prod.fst).Nodup := by
  have hs : List.Sublist (alistErase m k) m := List.filter_sublist m
  exact List.Nodup.sublist (hs.map Prod.fst) h

/-! ### Helper lemmas: eviction and bounded append -/

theorem length_evictFront (bound : ℕ) (s : List α) :
    (evictFront bound s).length = s.length - (s.length - bound) := by
  simp [evictFront]

theorem length_evictFront_le (bound : ℕ) (s : List α) :
    (evictFront bound s).length ≤ bound := by
  rw [length_evictFront]; omega

theorem evictFront_nil_of_le (bound : ℕ) (s : List α) (h : s.length ≤ bound) :
    evictFront bound s = s := by
  have : s.length - bound = 0 := by omega
  simp [evictFront, this]

theorem evictXdpLoop_fst (bound : ℕ) :
    ∀ (s : List XdpEntry) (c : List (String × ℕ)),
      (evictXdpLoop bound s c).1 = evictFront bound s := by
  intro s
  induction s with
  | nil => intro c; simp [evictXdpLoop, evictFront]
  | cons e rest ih =>
    intro c
    rw [evictXdpLoop]
    by_cases h : rest.length + 1 > bound
    · rw [if_pos h, ih]
      have h1 : (e :: rest).length - bound = (rest.length - bound) + 1 := by
        simp only [List.length_cons]; omega
      simp only [evictFront, h1, List.drop_succ_cons]
    · rw [if_neg h]
      have h1 : rest.length + 1 - bound = 0 := by omega
      simp [evictFront, h1]

theorem getLast?_evictFront_append (bound : ℕ) (hb : 1 ≤ bound)
    (xs : List α) (x : α) :
    (evictFront bound (xs ++ [x])).getLast? = some x := by
  have hlen : (xs ++ [x]).length - bound ≤ xs.length := by
    simp only [List.length_append, List.length_singleton]; omega
  rw [evictFront, List.drop_append_of_le_length hlen, List.getLast?_concat]

theorem takeLast_all {s : List α} {n : ℕ} (h : s.length ≤ n) :
    takeLast n s = s := by
  have : s.length - n = 0 := by omega
  simp [takeLast, this]

/-! ### Projection lemmas for the integrity entry -/

theorem build_stream (p : Val) (n : ℚ) (s : Option String) (d : Val) :
    (buildIntegrityEntry p n s d).stream = strOrDefault s "integrity" := rfl

theorem build_hostname (p : Val) (n : ℚ) (s : Option String) (d : Val) :
    (buildIntegrityEntry p n s d).hostname = integrityHostname p d := rfl

theorem build_interface (p : Val) (n : ℚ) (s : Option String) (d : Val) :
    (buildIntegrityEntry p n s d).interface = integrityInterface p d := rfl

theorem build_exchange (p : Val) (n : ℚ) (s : Option String) (d : Val) :
    (buildIntegrityEntry p n s d).exchange = integrityExchange p := rfl

theorem build_stage (p : Val) (n : ℚ) (s : Option String) (d : Val) :
    (buildIntegrityEntry p n s d).stage = integrityStage p := rfl

theorem build_type (p : Val) (n : ℚ) (s : Option String) (d : Val) :
    (buildIntegrityEntry p n s d).type = integrityEventType p := rfl

theorem build_timestamp (p : Val) (n : ℚ) (s : Option String) (d : Val) :
    (buildIntegrityEntry p n s d).timestamp = integrityTimestamp p n := rfl

theorem build_status (p : Val) (n : ℚ) (s : Option String) (d : Val) :
    (buildIntegrityEntry p n s d).status =
      if integrityFailCond p then "fail" else integrityStatusNorm p := rfl

theorem build_is_ok (p : Val) (n : ℚ) (s : Option String) (d : Val) :
    (buildIntegrityEntry p n s d).is_ok =
      if integrityFailCond p then false
      else if integrityStatusNorm p ≠ "" then integrityStatusNorm p == "ok"
      else (integrityFailedSymbols p).isEmpty && (integrityFailedRequests p).isEmpty := rfl

theorem build_failed_symbols (p : Val) (n : ℚ) (s : Option String) (d : Val) :
    (buildIntegrityEntry p n s d).failed_symbols = integrityFailedSymbols p := rfl

theorem build_failed_requests (p : Val) (n : ℚ) (s : Option String) (d : Val) :
    (buildIntegrityEntry p n s d).failed_requests = integrityFailedRequests p := rfl

theorem build_key (p : Val) (n : ℚ) (s : Option String) (d : Val) :
    (buildIntegrityEntry p n s d).key =
      composeIntegrityKey (strOrDefault s "integrity") (integrityHostname p d)
        (integrityInterface p d) (integrityExchange p) "" (integrityStage p)
        (integrityEventType p) := rfl

/-- The code-side key composer agrees with the spec-worded one when the
symbol component is empty. -/
theorem compose_eq_claim_no_symbol (s h i x g t : String) :
    composeIntegrityKey s h i x "" g t = claimCompositeKey s h i x g t "" := by
  simp [composeIntegrityKey, claimCompositeKey]

theorem boundedAppend_takeLast (m : ℕ) (hm : 1 ≤ m) (xs : List α) (x : α) :
    boundedAppend m (takeLast m xs) x = takeLast m (xs ++ [x]) := by
  have hd : xs.length - m ≤ xs.length := by omega
  have h1 : takeLast m xs ++ [x] = (xs ++ [x]).drop (xs.length - m) := by
    rw [takeLast, List.drop_append_of_le_length hd]
  rw [boundedAppend, evictFront, h1, List.drop_drop, takeLast]
  have h2 : ((xs ++ [x]).drop (xs.length - m)).length = xs.length + 1 - (xs.length - m) := by
    simp [List.length_drop]
  rw [h2]
  have h3 : xs.length - m + (xs.length + 1 - (xs.length - m) - m) =
      (xs ++ [x]).length - m := by
    simp only [List.length_append, List.length_cons, List.length_nil]; omega
  rw [h3]

/-! ## Claim C10 -/

/-- C10: calling `add_integrity_payload` with a payload that is not a
dict returns the empty update list and leaves the whole store state
unchanged. -/
theorem add_integrity_non_dict_noop (st : MetricStore) (payload : Val)
    (now : ℚ) (source : Option String) (defaults : Val)
    (h : payload.isDict = false) :
    addIntegrityPayload st payload now source defaults = ([], st) := by
  simp [addIntegrityPayload, h]

theorem add_integrity_non_dict_noop_witness :
    (Val.vstr "x").isDict = false ∧
      addIntegrityPayload (mkMetricStore 4 4) (Val.vstr "x") 1 none (Val.vdict []) =
        ([], mkMetricStore 4 4) :=
  ⟨rfl, add_integrity_non_dict_noop (mkMetricStore 4 4) (Val.vstr "x") 1 none
    (Val.vdict []) rfl⟩

/-! ## Claim C1 -/

/-- C1 counterexample: a payload with a non-empty symbol.  The produced
point's symbol is `"BTC"`, yet the key omits it: `add_integrity_payload`
always passes an empty symbol to the key composer (store.py line 285), so
the key is `"integrity|ex"` while the claim's concatenation of the
point's non-empty components would be `"integrity|ex|BTC"`. -/
theorem integrity_composite_key_counterexample :
    let e := buildIntegrityEntry
      (Val.vdict [("exchange", Val.vstr "ex"), ("symbol", Val.vstr "btc")])
      5 none (Val.vdict [])
    e.symbol = "BTC" ∧ e.key = "integrity|ex" ∧
      claimCompositeKey e.stream e.hostname e.interface e.exchange e.stage
        e.type e.symbol = "integrity|ex|BTC" ∧
      e.key ≠ claimCompositeKey e.stream e.hostname e.interface e.exchange
        e.stage e.type e.symbol := by
  refine ⟨rfl, rfl, rfl, ?_⟩
  decide

/-- C1 (amended): for every payload ingested via `add_integrity_payload`,
the composite key of the resulting point is the claim's concatenation of
the point's components — stream, hostname, interface, exchange, stage,
type, in that fixed order, non-empty components only, with the claimed
casing and the sentinel fallback — except that the symbol component is
always passed as empty (the point's symbol is never part of the key); and
two ingested payloads with identical effective components map to the same
series key. -/
theorem integrity_composite_key_amended (payload : Val) (now : ℚ)
    (source : Option String) (defaults : Val) :
    ((buildIntegrityEntry payload now source defaults).key =
      claimCompositeKey (buildIntegrityEntry payload now source defaults).stream
        (buildIntegrityEntry payload now source defaults).hostname
        (buildIntegrityEntry payload now source defaults).interface
        (buildIntegrityEntry payload now source defaults).exchange
        (buildIntegrityEntry payload now source defaults).stage
        (buildIntegrityEntry payload now source defaults).type "") ∧
    (∀ (p' : Val) (n' : ℚ) (s' : Option String) (d' : Val),
      (buildIntegrityEntry payload now source defaults).stream =
        (buildIntegrityEntry p' n' s' d').stream →
      (buildIntegrityEntry payload now source defaults).hostname =
        (buildIntegrityEntry p' n' s' d').hostname →
      (buildIntegrityEntry payload now source defaults).interface =
        (buildIntegrityEntry p' n' s' d').interface →
      (buildIntegrityEntry payload now source defaults).exchange =
        (buildIntegrityEntry p' n' s' d').exchange →
      (buildIntegrityEntry payload now source defaults).stage =
        (buildIntegrityEntry p' n' s' d').stage →
      (buildIntegrityEntry payload now source defaults).type =
        (buildIntegrityEntry p' n' s' d').type →
      (buildIntegrityEntry payload now source defaults).key =
        (buildIntegrityEntry p' n' s' d').key) := by
  constructor
  · rw [build_key, build_stream, build_hostname, build_interface,
      build_exchange, build_stage, build_type]
    exact compose_eq_claim_no_symbol _ _ _ _ _ _
  · intro p' n' s' d' h1 h2 h3 h4 h5 h6
    rw [build_stream, build_stream] at h1
    rw [build_hostname, build_hostname] at h2
    rw [build_interface, build_interface] at h3
    rw [build_exchange, build_exchange] at h4
    rw [build_stage, build_stage] at h5
    rw [build_type, build_type] at h6
    rw [build_key, build_key, h1, h2, h3, h4, h5, h6]

theorem integrity_composite_key_amended_witness :
    (buildIntegrityEntry (Val.vdict [("exchange", Val.vstr "EX")]) 3 none
        (Val.vdict [])).key =
      (buildIntegrityEntry
        (Val.vdict [("exchange", Val.vstr "EX"), ("symbol", Val.vstr "btc")])
        7 none (Val.vdict [])).key :=
  (integrity_composite_key_amended
      (Val.vdict [("exchange", Val.vstr "EX")]) 3 none (Val.vdict [])).2
    (Val.vdict [("exchange", Val.vstr "EX"), ("symbol", Val.vstr "btc")])
    7 none (Val.vdict []) rfl rfl rfl rfl rfl rfl

/-! ## Claim C4 -/

/-- C4: for every ingested integrity payload, the produced point has
`is_ok = (status == "ok")` whenever the payload's (normalized) status is
non-empty, and when the status is empty, `is_ok` holds exactly when the
derived failed-symbol and failed-request lists are both empty. -/
theorem integrity_is_ok_semantics (payload : Val) (now : ℚ)
    (source : Option String) (defaults : Val) :
    (integrityStatusNorm payload ≠ "" →
      (buildIntegrityEntry payload now source defaults).is_ok =
        ((buildIntegrityEntry payload now source defaults).status == "ok")) ∧
    (integrityStatusNorm payload = "" →
      (buildIntegrityEntry payload now source defaults).is_ok =
        ((buildIntegrityEntry payload now source defaults).failed_symbols.isEmpty &&
         (buildIntegrityEntry payload now source defaults).failed_requests.isEmpty)) := by
  constructor
  · intro hs
    rw [build_is_ok, build_status]
    have hb : (integrityStatusNorm payload == "") = false :=
      beq_eq_false_iff_ne.mpr hs
    simp [integrityFailCond, hb, hs]
  · intro hs
    rw [build_is_ok, build_failed_symbols, build_failed_requests]
    cases hfs : (integrityFailedSymbols payload).isEmpty <;>
      cases hfr : (integrityFailedRequests payload).isEmpty <;>
        simp [integrityFailCond, hs, hfs, hfr]

theorem integrity_is_ok_semantics_witness :
    (integrityStatusNorm (Val.vdict [("status", Val.vstr "Fail")]) ≠ "" ∧
      (buildIntegrityEntry (Val.vdict [("status", Val.vstr "Fail")]) 2 none
          (Val.vdict [])).is_ok =
        ((buildIntegrityEntry (Val.vdict [("status", Val.vstr "Fail")]) 2 none
            (Val.vdict [])).status == "ok")) ∧
    (integrityStatusNorm (Val.vdict []) = "" ∧
      (buildIntegrityEntry (Val.vdict []) 2 none (Val.vdict [])).is_ok =
        ((buildIntegrityEntry (Val.vdict []) 2 none
            (Val.vdict [])).failed_symbols.isEmpty &&
         (buildIntegrityEntry (Val.vdict []) 2 none
            (Val.vdict [])).failed_requests.isEmpty)) :=
  ⟨⟨by decide,
    (integrity_is_ok_semantics (Val.vdict [("status", Val.vstr "Fail")]) 2 none
      (Val.vdict [])).1 (by decide)⟩,
   ⟨rfl,
    (integrity_is_ok_semantics (Val.vdict []) 2 none (Val.vdict [])).2 rfl⟩⟩

/-! ## Claim C9 -/

/-- Is a payload value non-negative under `_as_float` coercion?  Numbers
must be non-negative, parseable numeric strings must parse non-negative;
`None`, booleans, unparseable strings and containers coerce to a
non-negative default anyway. -/
def nonNegVal (v : Val) : Bool :=
  match v with
  | .vnum q => decide (0 ≤ q)
  | .vstr s =>
    match parseDecimal? s with
    | some q => decide (0 ≤ q)
    | none => true
  | _ => true

/-- The dict fields of the payload's `metrics` object (empty when metrics
is absent or not a dict). -/
def xdpMetricsFields (payload : Val) : List (String × Val) :=
  match xdpMetricsNorm payload with
  | .vdict fs => fs
  | _ => []

theorem asFloat_nonneg {v : Val} (h : nonNegVal v = true) : 0 ≤ asFloat v 0 := by
  cases v with
  | vnum q => simpa [nonNegVal, asFloat] using h
  | vbool b => cases b <;> simp [asFloat]
  | vstr s =>
    simp only [asFloat]
    cases hp : parseDecimal? s with
    | none => simp
    | some q =>
      simp only [nonNegVal, hp, decide_eq_true_eq] at h
      simpa using h
  | vnull => simp [asFloat]
  | vlist xs => simp [asFloat]
  | vdict fs => simp [asFloat]

theorem pyOr_eq_or (a b : Val) : pyOr a b = a ∨ pyOr a b = b := by
  by_cases h : truthy a = true <;> simp [pyOr, h]

theorem pyGet_metrics_nonneg (payload : Val) (k : String)
    (H : ∀ p ∈ xdpMetricsFields payload, nonNegVal p.2 = true) :
    nonNegVal (pyGet (xdpMetricsNorm payload) k) = true := by
  rcases hm : xdpMetricsNorm payload with _ | b | q | s | xs | fs <;>
    simp only [pyGet, nonNegVal]
  cases hl : fs.lookup k with
  | none => simp [nonNegVal]
  | some v =>
    have hv : (k, v) ∈ fs := lookup_mem hl
    have := H (k, v) (by rw [xdpMetricsFields, hm]; exact hv)
    simpa [nonNegVal] using this

theorem xdpChain_nonneg (payload : Val)
    (H : ∀ p ∈ xdpMetricsFields payload, nonNegVal p.2 = true) :
    nonNegVal (xdpAvgChain payload) = true ∧
      nonNegVal (xdpMaxChain payload) = true := by
  constructor
  · rw [xdpAvgChain]
    rcases pyOr_eq_or (pyGet (xdpMetricsNorm payload) "bps_avg")
      (pyOr (pyGet (xdpMetricsNorm payload) "avg_bps")
        (pyOr (pyGet (xdpMetricsNorm payload) "avg")
          (pyGet (xdpMetricsNorm payload) "bps_mean"))) with h | h <;> rw [h]
    · exact pyGet_metrics_nonneg payload _ H
    · rcases pyOr_eq_or (pyGet (xdpMetricsNorm payload) "avg_bps")
        (pyOr (pyGet (xdpMetricsNorm payload) "avg")
          (pyGet (xdpMetricsNorm payload) "bps_mean")) with h' | h' <;> rw [h']
      · exact pyGet_metrics_nonneg payload _ H
      · rcases pyOr_eq_or (pyGet (xdpMetricsNorm payload) "avg")
          (pyGet (xdpMetricsNorm payload) "bps_mean") with h'' | h'' <;> rw [h'']
        · exact pyGet_metrics_nonneg payload _ H
        · exact pyGet_metrics_nonneg payload _ H
  · rw [xdpMaxChain]
    rcases pyOr_eq_or (pyGet (xdpMetricsNorm payload) "bps_max")
      (pyOr (pyGet (xdpMetricsNorm payload) "max_bps")
        (pyGet (xdpMetricsNorm payload) "max")) with h | h <;> rw [h]
    · exact pyGet_metrics_nonneg payload _ H
    · rcases pyOr_eq_or (pyGet (xdpMetricsNorm payload) "max_bps")
        (pyGet (xdpMetricsNorm payload) "max") with h' | h' <;> rw [h']
      · exact pyGet_metrics_nonneg payload _ H
      · exact pyGet_metrics_nonneg payload _ H

theorem buildXdp_avg_bps (p : Val) (n : ℚ) (s : Option String) :
    (buildXdpEntry p n s).avg_bps = asFloat (xdpAvgChain p) 0 := rfl

theorem buildXdp_max_bps (p : Val) (n : ℚ) (s : Option String) :
    (buildXdpEntry p n s).max_bps = asFloat (xdpMaxChain p) 0 := rfl

/-- C9 counterexample: the payload
`{hostname:"h1", interface:"eth0", timestamp:1000, metrics:{bps_avg:-100,
bps_max:200}}` is shape-valid per the wire contract, yet `_as_float`
passes the negative rate straight through, so the returned point has
`avg_bps = -100 < 0`. -/
theorem throughput_nonneg_counterexample :
    let e := buildXdpEntry
      (Val.vdict [("hostname", Val.vstr "h1"), ("interface", Val.vstr "eth0"),
        ("timestamp", Val.vnum 1000),
        ("metrics", Val.vdict [("bps_avg", Val.vnum (-100)),
          ("bps_max", Val.vnum 200)])]) 0 none
    e.avg_bps = -100 ∧ ¬ (0 ≤ e.avg_bps) := by
  constructor
  · rfl
  · decide

/-- C9 (amended): `add_throughput` never raises (every coercion is total,
missing or unparseable numeric fields defaulting to 0), and the returned
point has non-negative `avg_bps`/`max_bps` whenever the supplied metric
field values are themselves non-negative (negative supplied rates pass
through unchanged); the scenario payload `{hostname:"h1",
interface:"eth0", timestamp:1000.0, metrics:{bps_avg:100, bps_max:200}}`
yields `avg_mbps = 0.0001` and key `"h1|eth0"`. -/
theorem throughput_nonneg_amended (payload : Val) (now : ℚ)
    (source : Option String)
    (H : ∀ p ∈ xdpMetricsFields payload, nonNegVal p.2 = true) :
    (0 ≤ (buildXdpEntry payload now source).avg_bps ∧
     0 ≤ (buildXdpEntry payload now source).max_bps) ∧
    (buildXdpEntry
        (Val.vdict [("hostname", Val.vstr "h1"), ("interface", Val.vstr "eth0"),
          ("timestamp", Val.vnum 1000),
          ("metrics", Val.vdict [("bps_avg", Val.vnum 100),
            ("bps_max", Val.vnum 200)])]) 0 none).avg_mbps = 1 / 10000 ∧
    (addXdpPayload (mkMetricStore 72 72)
        (Val.vdict [("hostname", Val.vstr "h1"), ("interface", Val.vstr "eth0"),
          ("timestamp", Val.vnum 1000),
          ("metrics", Val.vdict [("bps_avg", Val.vnum 100),
            ("bps_max", Val.vnum 200)])]) 0 none).1.1 = "h1|eth0" ∧
    (buildXdpEntry
        (Val.vdict [("metrics", Val.vdict [("bps_avg", Val.vstr "garbage")])])
        0 none).avg_bps = 0 := by
  refine ⟨?_, ?_, rfl, rfl⟩
  · rw [buildXdp_avg_bps, buildXdp_max_bps]
    exact ⟨asFloat_nonneg (xdpChain_nonneg payload H).1,
      asFloat_nonneg (xdpChain_nonneg payload H).2⟩
  · rw [show (buildXdpEntry
        (Val.vdict [("hostname", Val.vstr "h1"), ("interface", Val.vstr "eth0"),
          ("timestamp", Val.vnum 1000),
          ("metrics", Val.vdict [("bps_avg", Val.vnum 100),
            ("bps_max", Val.vnum 200)])]) 0 none).avg_mbps =
      (100 : ℚ) / 1000000 from rfl]
    norm_num

theorem throughput_nonneg_amended_witness :
    (∀ p ∈ xdpMetricsFields
        (Val.vdict [("metrics", Val.vdict [("bps_avg", Val.vnum 100),
          ("bps_max", Val.vnum 200)])]), nonNegVal p.2 = true) ∧
    0 ≤ (buildXdpEntry
        (Val.vdict [("metrics", Val.vdict [("bps_avg", Val.vnum 100),
          ("bps_max", Val.vnum 200)])]) 0 none).avg_bps :=
  ⟨by decide,
   (throughput_nonneg_amended
      (Val.vdict [("metrics", Val.vdict [("bps_avg", Val.vnum 100),
        ("bps_max", Val.vnum 200)])]) 0 none (by decide)).1.1⟩

/-! ## Claim C3 -/

theorem applyOpTrace_alertsMaxlen (st : MetricStore) (op : StoreOp) :
    (applyOpTrace st op).1.alertsMaxlen = st.alertsMaxlen := by
  cases op with
  | xdp p n s => rfl
  | integrity p n s d =>
    cases hd : p.isDict <;> simp [applyOpTrace, addIntegrityPayload, hd]

theorem runTrace_alertsMaxlen (ops : List StoreOp) : ∀ (st : MetricStore),
    (runTrace st ops).1.alertsMaxlen = st.alertsMaxlen := by
  induction ops with
  | nil => intro st; rfl
  | cons op ops ih =>
    intro st
    rw [runTrace]
    exact (ih (applyOpTrace st op).1).trans (applyOpTrace_alertsMaxlen st op)

/-- One-step effect of an op on the alert log: xdp ops and non-dict
integrity payloads leave it alone; a dict integrity payload appends the
entry, bounded, exactly when it is not ok. -/
theorem applyOpTrace_alerts_step (st : MetricStore) (op : StoreOp)
    (hm : 1 ≤ st.alertsMaxlen) (acc : List IntegrityEntry)
    (hs : st.alerts = takeLast st.alertsMaxlen acc) :
    (applyOpTrace st op).1.alerts =
      takeLast st.alertsMaxlen
        (acc ++ (applyOpTrace st op).2.filter (fun e => !e.is_ok)) := by
  cases op with
  | xdp p n s => simpa [applyOpTrace, addXdpPayload] using hs
  | integrity p n s d =>
    cases hd : p.isDict with
    | false => simpa [applyOpTrace, addIntegrityPayload, hd] using hs
    | true =>
      simp only [applyOpTrace, addIntegrityPayload, hd, if_true, List.map_cons,
        List.map_nil, List.filter]
      cases ho : (buildIntegrityEntry p n s d).is_ok with
      | true => simpa [ho] using hs
      | false =>
        simp only [ho, Bool.not_false]
        rw [hs, boundedAppend_takeLast st.alertsMaxlen hm]
        simp

theorem alerts_invariant (ops : List StoreOp) : ∀ (st : MetricStore)
    (acc : List IntegrityEntry), 1 ≤ st.alertsMaxlen →
    st.alerts = takeLast st.alertsMaxlen acc →
    (runTrace st ops).1.alerts =
      takeLast st.alertsMaxlen
        (acc ++ (runTrace st ops).2.filter (fun e => !e.is_ok)) := by
  induction ops with
  | nil => intro st acc _ hs; simpa [runTrace] using hs
  | cons op ops ih =>
    intro st acc hm hs
    rw [runTrace]
    have hstep := applyOpTrace_alerts_step st op hm acc hs
    have hm' : 1 ≤ (applyOpTrace st op).1.alertsMaxlen := by
      rw [applyOpTrace_alertsMaxlen]; exact hm
    have := ih (applyOpTrace st op).1
      (acc ++ (applyOpTrace st op).2.filter (fun e => !e.is_ok)) hm'
      (by rw [applyOpTrace_alertsMaxlen]; exact hstep)
    simp only at this ⊢
    rw [this, applyOpTrace_alertsMaxlen, List.filter_append, List.append_assoc]

/-- C3 counterexample: with the global integrity bound configured to 1,
two not-ok payloads for the same series leave the series at its bound of
1 point, but the alert log holds 2 points — the alert log's bound is
`max(integrity_points, 128)` (store.py line 59), not the series policy. -/
theorem alert_log_counterexample :
    let p := Val.vdict [("exchange", Val.vstr "ex"), ("status", Val.vstr "fail")]
    let st := (runTrace (mkMetricStore 1 1)
      [StoreOp.integrity p 10 none (Val.vdict []),
       StoreOp.integrity p 20 none (Val.vdict [])]).1
    (alistGet st.integritySeries "integrity|ex" []).length = 1 ∧
      retentionLimit st "integrity" = 1 ∧
      st.alerts.length = 2 ∧ st.alertsMaxlen = 128 := by
  refine ⟨rfl, rfl, rfl, rfl⟩

/-- C3 (amended): at every reachable store state, the alert log is
exactly the newest `max(global integrity default, 128)` of the ingested
integrity points whose `is_ok` is false, in ingestion order — every
not-ok point is appended, no ok point ever — but its bound is the fixed
`max(integrity_points, 128)` set at construction, not the per-stream
retention policy of the other integrity series. -/
theorem alert_log_amended (xdpN integN : ℕ) (ops : List StoreOp) :
    (runTrace (mkMetricStore xdpN integN) ops).1.alerts =
      takeLast (max (max integN 1) 128)
        ((runTrace (mkMetricStore xdpN integN) ops).2.filter
          (fun e => !e.is_ok)) ∧
    (runTrace (mkMetricStore xdpN integN) ops).1.alertsMaxlen =
      max (max integN 1) 128 := by
  have hm : 1 ≤ (mkMetricStore xdpN integN).alertsMaxlen := by
    simp [mkMetricStore]
  have h := alerts_invariant ops (mkMetricStore xdpN integN) [] hm
    (by simp [mkMetricStore, takeLast])
  constructor
  · simpa [mkMetricStore] using h
  · rw [runTrace_alertsMaxlen]
    rfl

/-! ## Claim C2 -/

/-- Every throughput series holds at most the configured xdp bound. -/
def XdpBounded (st : MetricStore) : Prop :=
  ∀ k, (alistGet st.xdpSeries k []).length ≤ st.xdpPoints

/-- The bound governing an integrity series: the retention limit of the
stream that last wrote it (every point of a series carries the stream
that keyed it), the global default for an empty series. -/
def integritySeriesLimit (st : MetricStore) (s : List IntegrityEntry) : ℕ :=
  ((s.getLast?).map (fun e => retentionLimit st e.stream)).getD st.integrityPoints

/-- Every integrity series holds at most its governing bound. -/
def IntegrityBounded (st : MetricStore) : Prop :=
  ∀ k, (alistGet st.integritySeries k []).length ≤
    integritySeriesLimit st (alistGet st.integritySeries k [])

/-- Well-formedness the constructor and `set_integrity_retention`
guarantee: the global default is at least 1 (`max(integrity_points, 1)`)
and every stored override is positive. -/
def StoreWF (st : MetricStore) : Prop :=
  1 ≤ st.integrityPoints ∧ ∀ p ∈ st.integrityRetention, 1 ≤ p.2

theorem retentionLimit_pos {st : MetricStore} (h : StoreWF st) (stream : String) :
    1 ≤ retentionLimit st stream := by
  rw [retentionLimit, alistGet]
  cases hl : st.integrityRetention.lookup stream with
  | none => simpa using h.1
  | some w => simpa using h.2 (stream, w) (lookup_mem hl)

theorem mem_alistSet {β : Type} {m : List (String × β)} {k : String} {v : β}
    {q : String × β} (h : q ∈ alistSet m k v) : q = (k, v) ∨ q ∈ m := by
  induction m with
  | nil => simpa [alistSet] using h
  | cons p rest ih =>
    rcases p with ⟨k', v'⟩
    by_cases hk : k' = k
    · subst hk
      rw [alistSet, if_pos rfl, List.mem_cons] at h
      rcases h with h | h
      · exact Or.inl h
      · exact Or.inr (List.mem_cons_of_mem _ h)
    · rw [alistSet, if_neg hk, List.mem_cons] at h
      rcases h with h | h
      · exact Or.inr (by simp [h])
      · rcases ih h with h' | h'
        · exact Or.inl h'
        · exact Or.inr (List.mem_cons_of_mem _ h')

/-! #### What each operation leaves untouched -/

theorem addXdp_fixed (st : MetricStore) (p : Val) (n : ℚ) (s : Option String) :
    (addXdpPayload st p n s).2.integritySeries = st.integritySeries ∧
    (addXdpPayload st p n s).2.integrityRetention = st.integrityRetention ∧
    (addXdpPayload st p n s).2.integrityPoints = st.integrityPoints ∧
    (addXdpPayload st p n s).2.xdpPoints = st.xdpPoints :=
  ⟨rfl, rfl, rfl, rfl⟩

theorem addIntegrity_fixed (st : MetricStore) (p : Val) (n : ℚ)
    (s : Option String) (d : Val) :
    (addIntegrityPayload st p n s d).2.xdpSeries = st.xdpSeries ∧
    (addIntegrityPayload st p n s d).2.integrityRetention = st.integrityRetention ∧
    (addIntegrityPayload st p n s d).2.integrityPoints = st.integrityPoints ∧
    (addIntegrityPayload st p n s d).2.xdpPoints = st.xdpPoints := by
  cases hd : p.isDict <;> simp [addIntegrityPayload, hd]

theorem applyOp_retention (st : MetricStore) (op : StoreOp) :
    (applyOp st op).integrityRetention = st.integrityRetention ∧
    (applyOp st op).integrityPoints = st.integrityPoints ∧
    (applyOp st op).xdpPoints = st.xdpPoints := by
  cases op with
  | xdp p n s =>
    exact ⟨(addXdp_fixed st p n s).2.1, (addXdp_fixed st p n s).2.2.1,
      (addXdp_fixed st p n s).2.2.2⟩
  | integrity p n s d =>
    exact ⟨(addIntegrity_fixed st p n s d).2.1, (addIntegrity_fixed st p n s d).2.2.1,
      (addIntegrity_fixed st p n s d).2.2.2⟩

theorem retentionLimit_applyOp (st : MetricStore) (op : StoreOp)
    (stream : String) :
    retentionLimit (applyOp st op) stream = retentionLimit st stream := by
  rw [retentionLimit, retentionLimit, (applyOp_retention st op).1,
    (applyOp_retention st op).2.1]

theorem integritySeriesLimit_eq_of_retention {st' st : MetricStore}
    (h1 : st'.integrityRetention = st.integrityRetention)
    (h2 : st'.integrityPoints = st.integrityPoints)
    (s : List IntegrityEntry) :
    integritySeriesLimit st' s = integritySeriesLimit st s := by
  rw [integritySeriesLimit, integritySeriesLimit, h2]
  cases s.getLast? with
  | none => rfl
  | some e =>
    simp only [Option.map_some', Option.getD_some, retentionLimit, alistGet, h1, h2]

theorem storeWF_applyOp {st : MetricStore} (h : StoreWF st) (op : StoreOp) :
    StoreWF (applyOp st op) := by
  constructor
  · rw [(applyOp_retention st op).2.1]; exact h.1
  · intro p hp
    rw [(applyOp_retention st op).1] at hp
    exact h.2 p hp

/-! #### The shape of each mutation -/

theorem addXdp_xdpSeries (st : MetricStore) (p : Val) (n : ℚ) (s : Option String) :
    (addXdpPayload st p n s).2.xdpSeries =
      alistSet st.xdpSeries (xdpKeyOf p)
        (evictFront st.xdpPoints
          (alistGet st.xdpSeries (xdpKeyOf p) [] ++ [buildXdpEntry p n s])) := by
  show alistSet st.xdpSeries (xdpKeyOf p)
      (evictXdpLoop st.xdpPoints
        (alistGet st.xdpSeries (xdpKeyOf p) [] ++ [buildXdpEntry p n s]) _).1 = _
  rw [evictXdpLoop_fst]

theorem addIntegrity_integritySeries (st : MetricStore) {p : Val} (n : ℚ)
    (s : Option String) (d : Val) (hd : p.isDict = true) :
    (addIntegrityPayload st p n s d).2.integritySeries =
      alistSet st.integritySeries (buildIntegrityEntry p n s d).key
        (evictFront (retentionLimit st (strOrDefault s "integrity"))
          (alistGet st.integritySeries (buildIntegrityEntry p n s d).key [] ++
            [buildIntegrityEntry p n s d])) := by
  simp [addIntegrityPayload, hd]

/-! #### Preservation of the bounds -/

theorem xdpBounded_applyOp {st : MetricStore} (h : XdpBounded st)
    (op : StoreOp) : XdpBounded (applyOp st op) := by
  intro k
  rw [(applyOp_retention st op).2.2]
  cases op with
  | xdp p n s =>
    show (alistGet (addXdpPayload st p n s).2.xdpSeries k []).length ≤ _
    rw [addXdp_xdpSeries]
    by_cases hk : k = xdpKeyOf p
    · subst hk
      rw [alistGet_alistSet_self]
      exact length_evictFront_le _ _
    · rw [alistGet_alistSet_ne _ _ _ hk]
      exact h k
  | integrity p n s d =>
    show (alistGet (addIntegrityPayload st p n s d).2.xdpSeries k []).length ≤ _
    rw [(addIntegrity_fixed st p n s d).1]
    exact h k

theorem integrityBounded_applyOp {st : MetricStore} (hwf : StoreWF st)
    (h : IntegrityBounded st) (op : StoreOp) :
    IntegrityBounded (applyOp st op) := by
  intro k
  cases op with
  | xdp p n s =>
    have heq : applyOp st (StoreOp.xdp p n s) = (addXdpPayload st p n s).2 := rfl
    rw [heq, integritySeriesLimit_eq_of_retention (addXdp_fixed st p n s).2.1
      (addXdp_fixed st p n s).2.2.1, (addXdp_fixed st p n s).1]
    exact h k
  | integrity p n s d =>
    have heq : applyOp st (StoreOp.integrity p n s d) =
      (addIntegrityPayload st p n s d).2 := rfl
    rw [heq, integritySeriesLimit_eq_of_retention
      (addIntegrity_fixed st p n s d).2.1 (addIntegrity_fixed st p n s d).2.2.1]
    cases hd : p.isDict with
    | false =>
      have hst : (addIntegrityPayload st p n s d).2 = st := by
        rw [add_integrity_non_dict_noop st p n s d hd]
      rw [hst]
      exact h k
    | true =>
      rw [addIntegrity_integritySeries st n s d hd]
      by_cases hk : k = (buildIntegrityEntry p n s d).key
      · subst hk
        rw [alistGet_alistSet_self]
        have hL : 1 ≤ retentionLimit st (strOrDefault s "integrity") :=
          retentionLimit_pos hwf _
        rw [integritySeriesLimit, getLast?_evictFront_append _ hL]
        simp only [Option.map_some', Option.getD_some]
        rw [build_stream]
        exact length_evictFront_le _ _
      · rw [alistGet_alistSet_ne _ _ _ hk]
        exact h k

theorem bounded_runOps (ops : List StoreOp) : ∀ (st : MetricStore),
    StoreWF st → XdpBounded st → IntegrityBounded st →
    StoreWF (runOps st ops) ∧ XdpBounded (runOps st ops) ∧
      IntegrityBounded (runOps st ops) := by
  induction ops with
  | nil => intro st h1 h2 h3; exact ⟨h1, h2, h3⟩
  | cons op ops ih =>
    intro st h1 h2 h3
    exact ih (applyOp st op) (storeWF_applyOp h1 op) (xdpBounded_applyOp h2 op)
      (integrityBounded_applyOp h1 h3 op)

/-! #### Retention setup before the add sequence -/

/-- A sequence of `set_integrity_retention` calls, as done at
configuration time before ingestion starts. -/
def applySetup (st : MetricStore) (setup : List (String × Option ℤ)) :
    MetricStore :=
  setup.foldl (fun s kv => setIntegrityRetention s kv.1 kv.2) st

theorem setIntegrityRetention_series (st : MetricStore) (stream : String)
    (points : Option ℤ) :
    (setIntegrityRetention st stream points).xdpSeries = st.xdpSeries ∧
    (setIntegrityRetention st stream points).integritySeries = st.integritySeries ∧
    (setIntegrityRetention st stream points).xdpPoints = st.xdpPoints ∧
    (setIntegrityRetention st stream points).integrityPoints = st.integrityPoints := by
  unfold setIntegrityRetention
  rcases points with _ | p
  · exact ⟨rfl, rfl, rfl, rfl⟩
  · by_cases hp : 0 < p <;> simp [hp]

theorem storeWF_setIntegrityRetention {st : MetricStore} (h : StoreWF st)
    (stream : String) (points : Option ℤ) :
    StoreWF (setIntegrityRetention st stream points) := by
  unfold setIntegrityRetention
  rcases points with _ | p
  · exact ⟨h.1, fun q hq => h.2 q (List.mem_of_mem_filter hq)⟩
  · by_cases hp : 0 < p
    · simp only [hp, if_true]
      refine ⟨h.1, fun q hq => ?_⟩
      rcases mem_alistSet hq with h' | h'
      · rw [h']
        show 1 ≤ p.toNat
        omega
      · exact h.2 q h'
    · simp only [hp, if_false]
      exact ⟨h.1, fun q hq => h.2 q (List.mem_of_mem_filter hq)⟩

theorem applySetup_invariants (setup : List (String × Option ℤ)) :
    ∀ (st : MetricStore), StoreWF st →
      StoreWF (applySetup st setup) ∧
      (applySetup st setup).xdpSeries = st.xdpSeries ∧
      (applySetup st setup).integritySeries = st.integritySeries := by
  induction setup with
  | nil => intro st h; exact ⟨h, rfl, rfl⟩
  | cons kv setup ih =>
    intro st h
    have hstep := setIntegrityRetention_series st kv.1 kv.2
    have := ih (setIntegrityRetention st kv.1 kv.2)
      (storeWF_setIntegrityRetention h kv.1 kv.2)
    exact ⟨this.1, this.2.1.trans hstep.1, this.2.2.trans hstep.2.1⟩

/-- C2: after any sequence of `add_xdp_payload` / `add_integrity_payload`
calls from a freshly configured store (global bounds plus any per-stream
retention overrides set beforehand), every throughput series holds at
most the xdp bound and every integrity series at most its governing bound
(the per-stream override of the stream that wrote it when set, else the
global default); and each single `add_*` call changes any series only by
appending at most one new point at the back and removing points from the
front (FIFO eviction of the oldest points). -/
theorem eviction_invariant (xdpN integN : ℕ)
    (setup : List (String × Option ℤ)) (ops : List StoreOp) :
    (XdpBounded (runOps (applySetup (mkMetricStore xdpN integN) setup) ops) ∧
     IntegrityBounded (runOps (applySetup (mkMetricStore xdpN integN) setup) ops)) ∧
    (∀ (st : MetricStore) (op : StoreOp) (k : String),
      ∃ (tail : List XdpEntry) (nDrop : ℕ), tail.length ≤ 1 ∧
        alistGet (applyOp st op).xdpSeries k [] =
          (alistGet st.xdpSeries k [] ++ tail).drop nDrop) ∧
    (∀ (st : MetricStore) (op : StoreOp) (k : String),
      ∃ (tail : List IntegrityEntry) (nDrop : ℕ), tail.length ≤ 1 ∧
        alistGet (applyOp st op).integritySeries k [] =
          (alistGet st.integritySeries k [] ++ tail).drop nDrop) := by
  refine ⟨?_, ?_, ?_⟩
  · have hwf0 : StoreWF (mkMetricStore xdpN integN) := by
      refine ⟨by simp [mkMetricStore], by simp [mkMetricStore]⟩
    have hsetup := applySetup_invariants setup (mkMetricStore xdpN integN) hwf0
    have hx : XdpBounded (applySetup (mkMetricStore xdpN integN) setup) := by
      intro k
      rw [hsetup.2.1]
      simp [mkMetricStore, alistGet, List.lookup]
    have hi : IntegrityBounded (applySetup (mkMetricStore xdpN integN) setup) := by
      intro k
      rw [hsetup.2.2]
      simp [mkMetricStore, alistGet, List.lookup]
    have := bounded_runOps ops _ hsetup.1 hx hi
    exact ⟨this.2.1, this.2.2⟩
  · intro st op k
    cases op with
    | xdp p n s =>
      by_cases hk : k = xdpKeyOf p
      · subst hk
        refine ⟨[buildXdpEntry p n s],
          (alistGet st.xdpSeries (xdpKeyOf p) [] ++ [buildXdpEntry p n s]).length -
            st.xdpPoints, by simp, ?_⟩
        show alistGet (addXdpPayload st p n s).2.xdpSeries (xdpKeyOf p) [] = _
        rw [addXdp_xdpSeries, alistGet_alistSet_self]
        rfl
      · refine ⟨[], 0, by simp, ?_⟩
        show alistGet (addXdpPayload st p n s).2.xdpSeries k [] = _
        rw [addXdp_xdpSeries, alistGet_alistSet_ne _ _ _ hk]
        simp
    | integrity p n s d =>
      refine ⟨[], 0, by simp, ?_⟩
      show alistGet (addIntegrityPayload st p n s d).2.xdpSeries k [] = _
      rw [(addIntegrity_fixed st p n s d).1]
      simp
  · intro st op k
    cases op with
    | xdp p n s =>
      refine ⟨[], 0, by simp, ?_⟩
      show alistGet (addXdpPayload st p n s).2.integritySeries k [] = _
      rw [(addXdp_fixed st p n s).1]
      simp
    | integrity p n s d =>
      cases hd : p.isDict with
      | false =>
        refine ⟨[], 0, by simp, ?_⟩
        have : (addIntegrityPayload st p n s d).2 = st := by
          rw [add_integrity_non_dict_noop st p n s d hd]
        show alistGet (addIntegrityPayload st p n s d).2.integritySeries k [] = _
        rw [this]
        simp
      | true =>
        by_cases hk : k = (buildIntegrityEntry p n s d).key
        · subst hk
          refine ⟨[buildIntegrityEntry p n s d],
            (alistGet st.integritySeries (buildIntegrityEntry p n s d).key [] ++
              [buildIntegrityEntry p n s d]).length -
              retentionLimit st (strOrDefault s "integrity"), by simp, ?_⟩
          show alistGet (addIntegrityPayload st p n s d).2.integritySeries _ [] = _
          rw [addIntegrity_integritySeries st n s d hd, alistGet_alistSet_self]
          rfl
        · refine ⟨[], 0, by simp, ?_⟩
          show alistGet (addIntegrityPayload st p n s d).2.integritySeries k [] = _
          rw [addIntegrity_integritySeries st n s d hd,
            alistGet_alistSet_ne _ _ _ hk]
          simp

/-! ## Claim C5 -/

theorem mem_foldl_append {γ δ : Type} (f : γ → List δ) (l : List γ) :
    ∀ (init : List δ) (x : δ),
      x ∈ l.foldl (fun acc c => acc ++ f c) init ↔
        x ∈ init ∨ ∃ c ∈ l, x ∈ f c := by
  induction l with
  | nil => intro init x; simp
  | cons c cs ih =>
    intro init x
    rw [List.foldl_cons, ih]
    constructor
    · rintro (h | h)
      · rw [List.mem_append] at h
        rcases h with h | h
        · exact Or.inl h
        · exact Or.inr ⟨c, List.mem_cons_self c cs, h⟩
      · rcases h with ⟨c', hc', hx⟩
        exact Or.inr ⟨c', List.mem_cons_of_mem _ hc', hx⟩
    · rintro (h | ⟨c', hc', hx⟩)
      · exact Or.inl (by rw [List.mem_append]; exact Or.inl h)
      · rcases List.mem_cons.mp hc' with rfl | hc'
        · exact Or.inl (by rw [List.mem_append]; exact Or.inr hx)
        · exact Or.inr ⟨c', hc', hx⟩

/-- The per-record rewrites of `integrity_series` only touch `key` and
`stream`, so filter satisfaction is unchanged. -/
theorem queryRecord_passes
    (fe fs fh fi ft fg : Option String) (k : String) (p : IntegrityEntry) :
    passesFilters fe fs fh fi ft fg (queryRecord k p) =
      passesFilters fe fs fh fi ft fg p := rfl

theorem records_passes (st : MetricStore) (fe fs fh fi ft fg : Option String) :
    ∀ e ∈ integrityQueryRecords st fe fs fh fi ft fg,
      passesFilters fe fs fh fi ft fg e = true := by
  intro e he
  rw [integrityQueryRecords, mem_foldl_append] at he
  rcases he with h | ⟨kv, _, hx⟩
  · simp at h
  · rw [List.mem_filterMap] at hx
    rcases hx with ⟨point, _, hpe⟩
    by_cases hp : passesFilters fe fs fh fi ft fg point = true
    · rw [if_pos hp, Option.some_inj] at hpe
      rw [← hpe, queryRecord_passes]
      exact hp
    · rw [if_neg hp] at hpe
      simp at hpe

theorem length_takeLast_le (n : ℕ) (s : List α) : (takeLast n s).length ≤ n := by
  simp only [takeLast, List.length_drop]
  omega

/-- The concrete scenario ops for C5: five payloads for exchange `"X"`
with out-of-order timestamps 10, 30, 20, 50, 40, plus one for exchange
`"Y"`. -/
def c5ScenarioStore : MetricStore :=
  runOps (mkMetricStore 72 72)
    [StoreOp.integrity (Val.vdict [("exchange", Val.vstr "X"), ("timestamp", Val.vnum 10)]) 1 none (Val.vdict []),
     StoreOp.integrity (Val.vdict [("exchange", Val.vstr "X"), ("timestamp", Val.vnum 30)]) 1 none (Val.vdict []),
     StoreOp.integrity (Val.vdict [("exchange", Val.vstr "X"), ("timestamp", Val.vnum 20)]) 1 none (Val.vdict []),
     StoreOp.integrity (Val.vdict [("exchange", Val.vstr "X"), ("timestamp", Val.vnum 50)]) 1 none (Val.vdict []),
     StoreOp.integrity (Val.vdict [("exchange", Val.vstr "X"), ("timestamp", Val.vnum 40)]) 1 none (Val.vdict []),
     StoreOp.integrity (Val.vdict [("exchange", Val.vstr "Y"), ("timestamp", Val.vnum 60)]) 1 none (Val.vdict [])]

/-- C5: `query_integrity` applies all supplied filters as exact-match AND
conditions (every returned record satisfies them), returns records sorted
by timestamp ascending, never returns more than a positive `limit`, and
truncates from the front of the ascending order (the result is a suffix
of the full sorted filtered record list, which is a permutation of the
filtered records); in the concrete scenario, five points matching
`exchange="X"` with `limit=2` return the two most recent points in
ascending timestamp order. -/
theorem query_integrity_spec (st : MetricStore)
    (fe fs fh fi ft fg : Option String) (limit : Option ℤ) :
    (∀ e ∈ integritySeriesQuery st fe fs fh fi ft fg limit,
      passesFilters fe fs fh fi ft fg e = true) ∧
    List.Sorted tsLe (integritySeriesQuery st fe fs fh fi ft fg limit) ∧
    (∀ l : ℤ, limit = some l → 0 < l →
      (integritySeriesQuery st fe fs fh fi ft fg limit).length ≤ l.toNat) ∧
    (integritySeriesQuery st fe fs fh fi ft fg limit) <:+
      List.insertionSort tsLe (integrityQueryRecords st fe fs fh fi ft fg) ∧
    (List.insertionSort tsLe (integrityQueryRecords st fe fs fh fi ft fg)).Perm
      (integrityQueryRecords st fe fs fh fi ft fg) ∧
    ((integritySeriesQuery c5ScenarioStore (some "X") none none none none none
        (some 2)).map (fun e => e.timestamp)) = [40, 50] := by
  have hsorted : List.Sorted tsLe
      (List.insertionSort tsLe (integrityQueryRecords st fe fs fh fi ft fg)) :=
    List.sorted_insertionSort tsLe _
  have hperm := List.perm_insertionSort tsLe
    (integrityQueryRecords st fe fs fh fi ft fg)
  have hmem : ∀ e ∈ List.insertionSort tsLe
      (integrityQueryRecords st fe fs fh fi ft fg),
      passesFilters fe fs fh fi ft fg e = true := by
    intro e he
    exact records_passes st fe fs fh fi ft fg e (hperm.mem_iff.mp he)
  have hscenario : ((integritySeriesQuery c5ScenarioStore (some "X") none none
      none none none (some 2)).map (fun e => e.timestamp)) = [40, 50] := by
    decide
  rcases limit with _ | l₀
  · refine ⟨hmem, hsorted, ?_, List.suffix_refl _, hperm, hscenario⟩
    intro l hl
    exact absurd hl (by simp)
  · simp only [integritySeriesQuery]
    by_cases hc : 0 < l₀ ∧ l₀.toNat <
        (List.insertionSort tsLe
          (integrityQueryRecords st fe fs fh fi ft fg)).length
    · rw [if_pos hc]
      refine ⟨?_, ?_, ?_, ?_, hperm, hscenario⟩
      · intro e he
        rw [takeLast] at he
        exact hmem e (List.mem_of_mem_drop he)
      · exact List.Pairwise.sublist (List.drop_suffix _ _).sublist hsorted
      · intro l hl _
        have hll : l = l₀ := by injection hl with h; exact h.symm
        subst hll
        exact length_takeLast_le _ _
      · rw [takeLast]
        exact List.drop_suffix _ _
    · rw [if_neg hc]
      refine ⟨hmem, hsorted, ?_, List.suffix_refl _, hperm, hscenario⟩
      intro l hl hpos
      have hll : l = l₀ := by injection hl with h; exact h.symm
      subst hll
      rw [not_and_or, not_lt] at hc
      rcases hc with hc | hc
      · exact absurd hpos (not_lt.mpr hc)
      · exact Nat.le_of_not_lt hc

theorem query_integrity_spec_witness :
    (integritySeriesQuery c5ScenarioStore (some "X") none none none none none
      (some 2)).length ≤ (2 : ℤ).toNat :=
  (query_integrity_spec c5ScenarioStore (some "X") none none none none none
    (some 2)).2.2.1 2 rfl (by decide)

/-! ## Claim C8 -/

theorem foldMax_init_le : ∀ (cs : List (String × XdpEntry)) (b : ℚ),
    b ≤ cs.foldl (fun acc x => max acc x.2.timestamp) b := by
  intro cs
  induction cs with
  | nil => intro b; exact le_refl b
  | cons c cs ih =>
    intro b
    rw [List.foldl_cons]
    exact le_trans (le_max_left b c.2.timestamp) (ih (max b c.2.timestamp))

theorem foldMax_attained : ∀ (cs : List (String × XdpEntry)) (b : ℚ),
    b = cs.foldl (fun acc x => max acc x.2.timestamp) b ∨
    ∃ x ∈ cs, x.2.timestamp = cs.foldl (fun acc x => max acc x.2.timestamp) b := by
  intro cs
  induction cs with
  | nil => intro b; exact Or.inl rfl
  | cons c cs ih =>
    intro b
    rw [List.foldl_cons]
    rcases ih (max b c.2.timestamp) with h | ⟨x, hx, hts⟩
    · rcases max_choice b c.2.timestamp with hm | hm
      · exact Or.inl (by rw [← h, hm])
      · exact Or.inr ⟨c, List.mem_cons_self c cs, by rw [← h, hm]⟩
    · exact Or.inr ⟨x, List.mem_cons_of_mem _ hx, hts⟩

theorem getLast?_cons_of_ne_nil {a : α} {l : List α} (h : l ≠ []) :
    (a :: l).getLast? = l.getLast? := by
  cases l with
  | nil => exact absurd rfl h
  | cons b l => rfl

theorem filter_ne_nil_of_mem {p : α → Bool} {l : List α} {x : α}
    (hx : x ∈ l) (hp : p x = true) : l.filter p ≠ [] := by
  intro hnil
  have : x ∈ l.filter p := List.mem_filter.mpr ⟨hx, hp⟩
  rw [hnil] at this
  exact absurd this (List.not_mem_nil x)

theorem pickLatestAux_spec : ∀ (cs : List (String × XdpEntry))
    (best : String × XdpEntry),
    some (pickLatestAux best cs) =
      ((best :: cs).filter (fun x => decide (x.2.timestamp =
        cs.foldl (fun acc y => max acc y.2.timestamp)
          best.2.timestamp))).getLast? := by
  intro cs
  induction cs with
  | nil =>
    intro best
    simp [pickLatestAux, List.filter]
  | cons c cs ih =>
    intro best
    rw [List.foldl_cons]
    rw [pickLatestAux]
    by_cases h : best.2.timestamp ≤ c.2.timestamp
    · rw [if_pos h]
      have hmax : max best.2.timestamp c.2.timestamp = c.2.timestamp :=
        max_eq_right h
      rw [hmax]
      -- the best head is dominated; the tail filter is non-empty
      have hattain : ∃ x ∈ c :: cs, x.2.timestamp =
          cs.foldl (fun acc y => max acc y.2.timestamp) c.2.timestamp := by
        rcases foldMax_attained cs c.2.timestamp with h' | ⟨x, hx, hts⟩
        · exact ⟨c, List.mem_cons_self c cs, h'.symm ▸ h'⟩
        · exact ⟨x, List.mem_cons_of_mem _ hx, hts⟩
      rcases hattain with ⟨x, hx, hts⟩
      have hrest : ((c :: cs).filter (fun y => decide (y.2.timestamp =
          cs.foldl (fun acc z => max acc z.2.timestamp) c.2.timestamp))) ≠ [] :=
        filter_ne_nil_of_mem hx (by simpa using hts)
      rw [List.filter_cons]
      by_cases hb : best.2.timestamp =
          cs.foldl (fun acc z => max acc z.2.timestamp) c.2.timestamp
      · simp only [hb, decide_true_eq_true]
        rw [if_pos (by simp)]
        rw [getLast?_cons_of_ne_nil hrest]
        exact ih c
      · rw [if_neg (by simpa using hb)]
        exact ih c
    · rw [if_neg h]
      have hlt : c.2.timestamp < best.2.timestamp := lt_of_not_le h
      have hmax : max best.2.timestamp c.2.timestamp = best.2.timestamp :=
        max_eq_left (le_of_lt hlt)
      rw [hmax]
      have hcne : (decide (c.2.timestamp =
          List.foldl (fun acc z => max acc z.2.timestamp)
            best.2.timestamp cs)) = false := by
        simp only [decide_eq_false_iff_not]
        intro hEq
        exact absurd (hEq ▸ foldMax_init_le cs best.2.timestamp)
          (not_le.mpr hlt)
      have hfe : List.filter (fun x => decide (x.2.timestamp =
            List.foldl (fun acc z => max acc z.2.timestamp) best.2.timestamp cs))
          (best :: c :: cs) =
          List.filter (fun x => decide (x.2.timestamp =
            List.foldl (fun acc z => max acc z.2.timestamp) best.2.timestamp cs))
          (best :: cs) := by
        simp only [List.filter_cons, hcne]
        simp
      rw [hfe]
      exact ih best

/-- C8 (amended): `latest_throughput` (`latest_xdp_entry`) returns the
point with the maximum timestamp among the newest (last-appended) point
of each non-empty throughput series — not among all stored points — or
none when every series is empty; under exact timestamp ties the result is
whichever tying candidate is seen last in the iteration pass (non-strict
`>=` comparison). -/
theorem latest_throughput_amended (st : MetricStore) :
    latestXdpEntry st = specLatestThroughput (candidatesOf st) ∧
    (latestXdpEntry st = none ↔ candidatesOf st = []) := by
  constructor
  · unfold latestXdpEntry specLatestThroughput
    rcases candidatesOf st with _ | ⟨c, cs⟩
    · rfl
    · exact pickLatestAux_spec cs c
  · unfold latestXdpEntry
    rcases candidatesOf st with _ | ⟨c, cs⟩ <;> simp

/-- C8 counterexample: with stored points of timestamps 100 then 50 in
series `h1|eth0` (appended out of timestamp order) and 60 in `h2|eth0`,
the returned point has timestamp 60 — the maximum over each series'
*last* point — although a stored point with timestamp 100 > 60 exists, so
the result is not the maximum across all stored throughput points. -/
theorem latest_throughput_counterexample :
    let st := runOps (mkMetricStore 72 72)
      [StoreOp.xdp (Val.vdict [("hostname", Val.vstr "h1"),
          ("interface", Val.vstr "eth0"), ("timestamp", Val.vnum 100)]) 1 none,
       StoreOp.xdp (Val.vdict [("hostname", Val.vstr "h1"),
          ("interface", Val.vstr "eth0"), ("timestamp", Val.vnum 50)]) 1 none,
       StoreOp.xdp (Val.vdict [("hostname", Val.vstr "h2"),
          ("interface", Val.vstr "eth0"), ("timestamp", Val.vnum 60)]) 1 none]
    ((latestXdpEntry st).map (fun r => r.2.timestamp) = some 60) ∧
      (alistGet st.xdpSeries "h1|eth0" []).map (fun e => e.timestamp) = [100, 50] ∧
      (60 : ℚ) < 100 := by
  refine ⟨?_, ?_, by norm_num⟩
  · decide
  · decide

/-! ## Claim C6 -/

theorem tradeScanStep_eq (acc : TradeScanAcc) (raw : Val) :
    tradeScanStep acc raw =
      if raw.isDict then
        { exchange :=
            if getStrOr raw "exchange" ≠ "" ∧ acc.exchange = "" then
              getStrOr raw "exchange"
            else acc.exchange
          minute := if (pyGet raw "minute").isNull then acc.minute
            else pyGet raw "minute"
          items := acc.items ++ [tradeItemRecord raw]
          timestamps :=
            match extractTradeTimestamp raw with
            | some t => acc.timestamps ++ [t]
            | none => acc.timestamps }
      else acc := rfl

theorem tradeScan_foldl_items : ∀ (ps : List Val) (acc : TradeScanAcc),
    (ps.foldl tradeScanStep acc).items =
      acc.items ++ (ps.filter Val.isDict).map tradeItemRecord := by
  intro ps
  induction ps with
  | nil => intro acc; simp
  | cons raw ps ih =>
    intro acc
    rw [List.foldl_cons, ih, List.filter_cons]
    cases hd : raw.isDict with
    | false => simp [tradeScanStep_eq, hd]
    | true => simp [tradeScanStep_eq, hd]

theorem tradeScan_foldl_timestamps : ∀ (ps : List Val) (acc : TradeScanAcc),
    (ps.foldl tradeScanStep acc).timestamps =
      acc.timestamps ++ (ps.filter Val.isDict).filterMap extractTradeTimestamp := by
  intro ps
  induction ps with
  | nil => intro acc; simp
  | cons raw ps ih =>
    intro acc
    rw [List.foldl_cons, ih, List.filter_cons]
    cases hd : raw.isDict with
    | false => simp [tradeScanStep_eq, hd]
    | true =>
      cases ht : extractTradeTimestamp raw with
      | none => simp [tradeScanStep_eq, hd, ht, List.filterMap_cons]
      | some t => simp [tradeScanStep_eq, hd, ht, List.filterMap_cons]

theorem firstNonEmptyExchange?_cons (raw : Val) (ps : List Val) :
    firstNonEmptyExchange? (raw :: ps) =
      if raw.isDict then
        if getStrOr raw "exchange" = "" then firstNonEmptyExchange? ps
        else some (getStrOr raw "exchange")
      else firstNonEmptyExchange? ps := by
  rw [firstNonEmptyExchange?, List.findSome?_cons]
  cases hd : raw.isDict with
  | false => simp [hd, firstNonEmptyExchange?]
  | true =>
    by_cases hc : getStrOr raw "exchange" = "" <;>
      simp [hd, hc, firstNonEmptyExchange?]

theorem tradeScan_foldl_exchange : ∀ (ps : List Val) (acc : TradeScanAcc),
    (ps.foldl tradeScanStep acc).exchange =
      if acc.exchange = "" then (firstNonEmptyExchange? ps).getD ""
      else acc.exchange := by
  intro ps
  induction ps with
  | nil => intro acc; by_cases h : acc.exchange = "" <;> simp [firstNonEmptyExchange?, h]
  | cons raw ps ih =>
    intro acc
    rw [List.foldl_cons, ih, firstNonEmptyExchange?_cons]
    by_cases hacc : acc.exchange = ""
    · cases hd : raw.isDict with
      | false => simp [tradeScanStep_eq, hd, hacc]
      | true =>
        by_cases hcand : getStrOr raw "exchange" = ""
        · simp [tradeScanStep_eq, hd, hacc, hcand]
        · simp [tradeScanStep_eq, hd, hacc, hcand]
    · cases hd : raw.isDict with
      | false => simp [tradeScanStep_eq, hd, hacc]
      | true =>
        have hstep : (tradeScanStep acc raw).exchange = acc.exchange := by
          simp [tradeScanStep_eq, hd, hacc]
        simp [hstep, hacc]

theorem batchItems_eq (ps : List Val) (hdict : ∀ p ∈ ps, p.isDict = true) :
    batchItemsOf ps = ps.map tradeItemRecord := by
  rw [batchItemsOf, tradeScan, tradeScan_foldl_items,
    List.filter_eq_self.mpr hdict]
  simp

theorem batchTimestamp_eq (ps : List Val) (now : ℚ) :
    batchTimestampOf ps now = claimBatchTimestamp ps now := by
  unfold batchTimestampOf claimBatchTimestamp
  rw [tradeScan, tradeScan_foldl_timestamps]
  simp

theorem firstNonEmptyExchange?_ne_empty {ps : List Val} {e : String}
    (h : firstNonEmptyExchange? ps = some e) : e ≠ "" := by
  obtain ⟨p, _, hfp⟩ := List.exists_of_findSome?_eq_some h
  cases hd : p.isDict with
  | false => rw [if_neg (by simp [hd])] at hfp; simp at hfp
  | true =>
    rw [if_pos (by simp [hd])] at hfp
    by_cases hc : getStrOr p "exchange" = ""
    · rw [if_pos hc] at hfp; simp at hfp
    · rw [if_neg hc] at hfp
      rw [Option.some_inj] at hfp
      rw [← hfp]
      exact hc

theorem batchExchange_eq (ps : List Val) :
    batchExchangeOf ps = claimRepExchange ps := by
  rw [batchExchangeOf, claimRepExchange, tradeScan, tradeScan_foldl_exchange]
  cases hf : firstNonEmptyExchange? ps with
  | none => simp
  | some e => simp [firstNonEmptyExchange?_ne_empty hf]

theorem tradeItemRecord_status (raw : Val) :
    pyGet (tradeItemRecord raw) "status" =
      .vstr ((getStrOr raw "status").pyLower) := rfl

theorem batchFailures_eq (ps : List Val) (hdict : ∀ p ∈ ps, p.isDict = true) :
    batchFailuresOf ps =
      (ps.filter (fun p => !((getStrOr p "status").pyLower == "ok"))).map
        tradeItemRecord := by
  rw [batchFailuresOf, batchItems_eq ps hdict, List.filter_map]
  rfl

theorem batchStatus_iff (ps : List Val) (hdict : ∀ p ∈ ps, p.isDict = true) :
    batchStatusOf ps = "ok" ↔
      ∀ p ∈ ps, (getStrOr p "status").pyLower = "ok" := by
  have hiff : (batchFailuresOf ps).isEmpty = true ↔
      ∀ p ∈ ps, (getStrOr p "status").pyLower = "ok" := by
    rw [batchFailures_eq ps hdict, List.isEmpty_iff, List.map_eq_nil_iff,
      List.filter_eq_nil_iff]
    constructor
    · intro h p hp
      have := h p hp
      simpa using this
    · intro h p hp
      simpa using h p hp
  rw [batchStatusOf]
  by_cases hf : (batchFailuresOf ps).isEmpty
  · rw [if_pos hf]
    constructor
    · intro _
      exact hiff.mp hf
    · intro _
      rfl
  · rw [if_neg hf]
    constructor
    · intro h
      exact absurd h (by decide)
    · intro hall
      exact absurd (hiff.mpr hall) hf

/-- C6 counterexample: the synthetic aggregate payload emitted on a flush
carries the fields `trade_batch`, `trade_batch_size`,
`trade_batch_failures`, `trade_batch_items` (app.py lines 313-316) — it
has no `batch`, `batch_size`, `batch_failures` or `batch_items` field as
the claim states. -/
theorem trade_batch_fields_counterexample :
    let agg := (processTradeBatchPayload
      [Val.vdict [("exchange", Val.vstr "ex"), ("status", Val.vstr "ok"),
        ("timestamp", Val.vnum 1000)]] 5).getD Val.vnull
    hasKey agg "batch" = false ∧ hasKey agg "batch_size" = false ∧
      hasKey agg "batch_failures" = false ∧ hasKey agg "batch_items" = false ∧
      hasKey agg "trade_batch" = true ∧
      pyGet agg "trade_batch" = Val.vbool true := by
  exact ⟨rfl, rfl, rfl, rfl, rfl, rfl⟩

/-- C6 (amended): when the batch aggregator flushes a non-empty payload
list (of dict payloads, the only kind it buffers), the emitted synthetic
integrity payload has exchange equal to the first non-empty exchange
among the items (else the last element's), timestamp equal to the maximum
parseable event timestamp across items (falling back to the current time
if none is parseable), aggregate status `"ok"` iff no item has status
different from `"ok"`, and carries the fields `trade_batch = true`,
`trade_batch_size`, `trade_batch_failures` and `trade_batch_items`
(rather than the claim's `batch*` names). -/
theorem trade_batch_payload_amended (ps : List Val) (now : ℚ)
    (hne : ps ≠ []) (hdict : ∀ p ∈ ps, p.isDict = true) :
    pyGet ((processTradeBatchPayload ps now).getD Val.vnull) "exchange" =
      .vstr (claimRepExchange ps) ∧
    pyGet ((processTradeBatchPayload ps now).getD Val.vnull) "timestamp" =
      .vnum (claimBatchTimestamp ps now) ∧
    (pyGet ((processTradeBatchPayload ps now).getD Val.vnull) "status" =
        .vstr "ok" ↔
      ∀ p ∈ ps, (getStrOr p "status").pyLower = "ok") ∧
    pyGet ((processTradeBatchPayload ps now).getD Val.vnull) "trade_batch" =
      .vbool true ∧
    pyGet ((processTradeBatchPayload ps now).getD Val.vnull) "trade_batch_size" =
      .vnum (ps.length : ℚ) ∧
    pyGet ((processTradeBatchPayload ps now).getD Val.vnull)
        "trade_batch_failures" =
      .vnum ((ps.filter
        (fun p => !((getStrOr p "status").pyLower == "ok"))).length : ℚ) ∧
    pyGet ((processTradeBatchPayload ps now).getD Val.vnull)
        "trade_batch_items" = .vlist (ps.map tradeItemRecord) := by
  rcases ps with _ | ⟨p₀, ps'⟩
  · exact absurd rfl hne
  have hsome : processTradeBatchPayload (p₀ :: ps') now = some (.vdict
      [("type", .vstr "trade"),
       ("exchange", .vstr (batchExchangeOf (p₀ :: ps'))),
       ("symbol", .vstr "__batch__"),
       ("status", .vstr (batchStatusOf (p₀ :: ps'))),
       ("detail", .vstr (batchDetailOf (p₀ :: ps'))),
       ("minute", (tradeScan (p₀ :: ps')).minute),
       ("timestamp", .vnum (batchTimestampOf (p₀ :: ps') now)),
       ("trade_batch", .vbool true),
       ("trade_batch_size", .vnum ((batchItemsOf (p₀ :: ps')).length : ℚ)),
       ("trade_batch_failures",
         .vnum ((batchFailuresOf (p₀ :: ps')).length : ℚ)),
       ("trade_batch_items", .vlist (batchItemsOf (p₀ :: ps')))]) := rfl
  rw [hsome, Option.getD_some]
  refine ⟨?_, ?_, ?_, rfl, ?_, ?_, ?_⟩
  · show Val.vstr (batchExchangeOf (p₀ :: ps')) = _
    rw [batchExchange_eq]
  · show Val.vnum (batchTimestampOf (p₀ :: ps') now) = _
    rw [batchTimestamp_eq]
  · show Val.vstr (batchStatusOf (p₀ :: ps')) = Val.vstr "ok" ↔ _
    rw [Val.vstr.injEq]
    exact batchStatus_iff (p₀ :: ps') hdict
  · show Val.vnum ((batchItemsOf (p₀ :: ps')).length : ℚ) = _
    rw [batchItems_eq (p₀ :: ps') hdict, List.length_map]
  · show Val.vnum ((batchFailuresOf (p₀ :: ps')).length : ℚ) = _
    rw [batchFailures_eq (p₀ :: ps') hdict, List.length_map]
  · show Val.vlist (batchItemsOf (p₀ :: ps')) = _
    rw [batchItems_eq (p₀ :: ps') hdict]

theorem trade_batch_payload_amended_witness :
    ([Val.vdict [("exchange", Val.vstr "ex"), ("status", Val.vstr "ok"),
        ("timestamp", Val.vnum 1000)]] ≠ ([] : List Val)) ∧
    pyGet ((processTradeBatchPayload
        [Val.vdict [("exchange", Val.vstr "ex"), ("status", Val.vstr "ok"),
          ("timestamp", Val.vnum 1000)]] 5).getD Val.vnull) "exchange" =
      .vstr (claimRepExchange
        [Val.vdict [("exchange", Val.vstr "ex"), ("status", Val.vstr "ok"),
          ("timestamp", Val.vnum 1000)]]) :=
  ⟨by simp,
   (trade_batch_payload_amended
      [Val.vdict [("exchange", Val.vstr "ex"), ("status", Val.vstr "ok"),
        ("timestamp", Val.vnum 1000)]] 5 (by simp)
      (by intro p hp; simp at hp; rw [hp]; rfl)).1⟩

/-! ## Claim C7 -/

/-- C7: the aggregator's `add` (modelled as the transition system the
aggregator's lock linearizes, with the armed one-shot `threading.Timer`
carried as the fresh identity and delay it was created with) creates a
pending batch and arms a fresh timer for the configured delay only when
no batch exists for the key; a subsequent `add` for the key appends to
the existing batch and merges defaults without touching the armed timer
and without arming a new one; the pending-batch dict keeps at most one
batch per key (no-duplicate-keys is preserved by `add` and `_flush`); and
`_flush` removes the key's batch before the processor runs, so any later
`add` for that key finds no batch and must create a fresh one. -/
theorem aggregator_batch_lifecycle (st : AggState) (cfg : StreamCfg)
    (topic : String) (payload : Val) (defaults : List (String × Val)) :
    (payload.isDict = true →
      st.batches.lookup (aggMakeKey cfg topic payload defaults) = none →
      ((aggAdd st cfg topic payload defaults).batches.lookup
          (aggMakeKey cfg topic payload defaults) =
        some { streamCfg := cfg, topic := topic, payloads := [payload],
               defaults := defaults, timerId := st.nextTimerId,
               timerDelay := st.delay } ∧
       (aggAdd st cfg topic payload defaults).nextTimerId =
         st.nextTimerId + 1)) ∧
    (∀ b : PendingBatch, payload.isDict = true →
      st.batches.lookup (aggMakeKey cfg topic payload defaults) = some b →
      ((aggAdd st cfg topic payload defaults).batches.lookup
          (aggMakeKey cfg topic payload defaults) =
        some { b with
                payloads := b.payloads ++ [payload],
                topic := topic,
                defaults := mergeDefaults b.defaults defaults } ∧
       ({ b with
           payloads := b.payloads ++ [payload],
           topic := topic,
           defaults := mergeDefaults b.defaults defaults } :
            PendingBatch).timerId = b.timerId ∧
       ({ b with
           payloads := b.payloads ++ [payload],
           topic := topic,
           defaults := mergeDefaults b.defaults defaults } :
            PendingBatch).timerDelay = b.timerDelay ∧
       (aggAdd st cfg topic payload defaults).nextTimerId = st.nextTimerId)) ∧
    ((st.batches.map Prod.fst).Nodup →
      ((aggAdd st cfg topic payload defaults).batches.map Prod.fst).Nodup) ∧
    (∀ key : String,
      (aggFlushPop st key).1.batches.lookup key = none ∧
      ((st.batches.map Prod.fst).Nodup →
        ((aggFlushPop st key).1.batches.map Prod.fst).Nodup)) := by
  refine ⟨?_, ?_, ?_, ?_⟩
  · intro hd hnone
    have ha : aggAdd st cfg topic payload defaults =
        { st with
            batches := alistSet st.batches
              (aggMakeKey cfg topic payload defaults)
              { streamCfg := cfg, topic := topic, payloads := [payload],
                defaults := defaults, timerId := st.nextTimerId,
                timerDelay := st.delay }
            nextTimerId := st.nextTimerId + 1 } := by
      rw [aggAdd, if_pos hd]
      simp only [hnone]
    rw [ha]
    exact ⟨lookup_alistSet_self _ _ _, rfl⟩
  · intro b hd hsome
    have ha : aggAdd st cfg topic payload defaults =
        { st with
            batches := alistSet st.batches
              (aggMakeKey cfg topic payload defaults)
              { b with
                  payloads := b.payloads ++ [payload],
                  topic := topic,
                  defaults := mergeDefaults b.defaults defaults } } := by
      rw [aggAdd, if_pos hd]
      simp only [hsome]
    rw [ha]
    exact ⟨lookup_alistSet_self _ _ _, rfl, rfl, rfl⟩
  · intro hnodup
    by_cases hd : payload.isDict = true
    · cases hl : st.batches.lookup (aggMakeKey cfg topic payload defaults) with
      | none =>
        have ha : aggAdd st cfg topic payload defaults =
            { st with
                batches := alistSet st.batches
                  (aggMakeKey cfg topic payload defaults)
                  { streamCfg := cfg, topic := topic, payloads := [payload],
                    defaults := defaults, timerId := st.nextTimerId,
                    timerDelay := st.delay }
                nextTimerId := st.nextTimerId + 1 } := by
          rw [aggAdd, if_pos hd]
          simp only [hl]
        rw [ha]
        exact nodup_fst_alistSet _ _ hnodup
      | some b =>
        have ha : aggAdd st cfg topic payload defaults =
            { st with
                batches := alistSet st.batches
                  (aggMakeKey cfg topic payload defaults)
                  { b with
                      payloads := b.payloads ++ [payload],
                      topic := topic,
                      defaults := mergeDefaults b.defaults defaults } } := by
          rw [aggAdd, if_pos hd]
          simp only [hl]
        rw [ha]
        exact nodup_fst_alistSet _ _ hnodup
    · have ha : aggAdd st cfg topic payload defaults = st := by
        rw [aggAdd, if_neg hd]
      rw [ha]
      exact hnodup
  · intro key
    exact ⟨lookup_alistErase_self st.batches key,
      fun hnodup => nodup_fst_alistErase key hnodup⟩

theorem aggregator_batch_lifecycle_witness :
    (Val.vdict [("type", Val.vstr "trade"),
        ("exchange", Val.vstr "ex")]).isDict = true ∧
    (mkAggregator 1).batches.lookup
      (aggMakeKey ⟨"s1", "t1"⟩ "t1"
        (Val.vdict [("type", Val.vstr "trade"), ("exchange", Val.vstr "ex")])
        []) = none ∧
    (aggAdd (mkAggregator 1) ⟨"s1", "t1"⟩ "t1"
        (Val.vdict [("type", Val.vstr "trade"), ("exchange", Val.vstr "ex")])
        []).batches.lookup
      (aggMakeKey ⟨"s1", "t1"⟩ "t1"
        (Val.vdict [("type", Val.vstr "trade"), ("exchange", Val.vstr "ex")])
        []) =
      some { streamCfg := ⟨"s1", "t1"⟩, topic := "t1",
             payloads := [Val.vdict [("type", Val.vstr "trade"),
               ("exchange", Val.vstr "ex")]],
             defaults := [], timerId := (mkAggregator 1).nextTimerId,
             timerDelay := (mkAggregator 1).delay } :=
  ⟨rfl, rfl,
   ((aggregator_batch_lifecycle (mkAggregator 1) ⟨"s1", "t1"⟩ "t1"
      (Val.vdict [("type", Val.vstr "trade"), ("exchange", Val.vstr "ex")])
      []).1 rfl rfl).1⟩

end MktMonitor
